import Mathlib

/-!
Verification of the decaf-ts/ui-decorators Field Tree Builder
(`src/ui/Rendering.ts`), the type/validation translator
(`src/ui/Rendering.ts` `translate`, `toAttributeValue`; `src/ui/utils.ts`
`formatByType`, `escapeHtml`), and the rendering-engine registry
(`RenderingEngine.register` / `RenderingEngine.get`).

The TypeScript sources are shallowly embedded: JavaScript values are the
inductive `Value`, JS objects are insertion-ordered association lists with
`Object.assign` semantics, and the builder `toFieldDefinition` is a
fuel-indexed function into `Except` mirroring the source line by line.
-/

namespace UIDec

/-- A JavaScript runtime value as used by the rendering engine: strings,
numbers, booleans, `undefined`, arrays of CRUD operation keys (as stored by
`hideOn`), `Date` objects (year, month, day), plain objects, and model
instances (class name plus own property values). -/
inductive Value where
  | vUndef : Value
  | vStr : String → Value
  | vNum : Int → Value
  | vBool : Bool → Value
  | vOps : List String → Value
  | vDate : Int → Int → Int → Value
  | vObj : List (String × Value) → Value
  | vInst : String → List (String × Value) → Value
  deriving Repr

/-- A JS object: an insertion-ordered association list of string keys. -/
abbrev Obj := List (String × Value)

mutual

/-- Decidable equality for `Value` (needed so that concrete counterexamples
can be settled by `decide`). -/
def Value.beq : Value → Value → Bool
  | .vUndef, .vUndef => true
  | .vStr a, .vStr b => a == b
  | .vNum a, .vNum b => a == b
  | .vBool a, .vBool b => a == b
  | .vOps a, .vOps b => a == b
  | .vDate a b c, .vDate x y z => a == x && b == y && c == z
  | .vObj a, .vObj b => Value.beqList a b
  | .vInst n a, .vInst m b => n == m && Value.beqList a b
  | _, _ => false

/-- Pointwise equality of association lists of `Value`s. -/
def Value.beqList : List (String × Value) → List (String × Value) → Bool
  | [], [] => true
  | (k, v) :: a, (l, w) :: b => k == l && Value.beq v w && Value.beqList a b
  | _, _ => false

end

mutual

theorem Value.beq_refl : (a : Value) → Value.beq a a = true
  | .vUndef => rfl
  | .vStr _ => by simp [Value.beq]
  | .vNum _ => by simp [Value.beq]
  | .vBool _ => by simp [Value.beq]
  | .vOps _ => by simp [Value.beq]
  | .vDate _ _ _ => by simp [Value.beq]
  | .vObj a => by simp [Value.beq, Value.beqList_refl a]
  | .vInst _ a => by simp [Value.beq, Value.beqList_refl a]

theorem Value.beqList_refl : (a : List (String × Value)) → Value.beqList a a = true
  | [] => rfl
  | (k, v) :: a => by simp [Value.beqList, Value.beq_refl v, Value.beqList_refl a]

end

mutual

theorem Value.eq_of_beq : {a b : Value} → Value.beq a b = true → a = b
  | .vUndef, .vUndef, _ => rfl
  | .vStr _, .vStr _, h => by simp [Value.beq] at h; simp [h]
  | .vNum _, .vNum _, h => by simp [Value.beq] at h; simp [h]
  | .vBool _, .vBool _, h => by simp [Value.beq] at h; simp [h]
  | .vOps _, .vOps _, h => by simp [Value.beq] at h; simp [h]
  | .vDate _ _ _, .vDate _ _ _, h => by simp [Value.beq] at h; simp [h]
  | .vObj a, .vObj b, h => by
      simp only [Value.beq] at h
      simp [Value.eqList_of_beq h]
  | .vInst _ a, .vInst _ b, h => by
      simp only [Value.beq, Bool.and_eq_true, beq_iff_eq] at h
      simp [h.1, Value.eqList_of_beq h.2]

theorem Value.eqList_of_beq : {a b : List (String × Value)} →
    Value.beqList a b = true → a = b
  | [], [], _ => rfl
  | (k, v) :: a, (l, w) :: b, h => by
      simp only [Value.beqList, Bool.and_eq_true, beq_iff_eq] at h
      simp [h.1.1, Value.eq_of_beq h.1.2, Value.eqList_of_beq h.2]

end

instance : DecidableEq Value := fun a b =>
  if h : Value.beq a b = true then
    .isTrue (Value.eq_of_beq h)
  else
    .isFalse (fun he => h (he ▸ Value.beq_refl a))

/-- `o[k]`: property read on a JS object; absent keys read as `undefined`. -/
def oget (o : Obj) (k : String) : Value :=
  match o.find? (fun p => p.1 = k) with
  | none => .vUndef
  | some p => p.2

/-- Whether the object has an own property `k` (the JS `in` test). -/
def hasKey (o : Obj) (k : String) : Bool :=
  o.any (fun p => p.1 = k)

/-- `o[k] = v`: JS property write. An existing key keeps its insertion
position and is updated in place; a new key is appended. -/
def oset : Obj → String → Value → Obj
  | [], k, v => [(k, v)]
  | (k1, v1) :: rest, k, v =>
    if k1 = k then (k, v) :: rest else (k1, v1) :: oset rest k v

/-- Rest destructuring `{ x, ...rest } = o`: drop one key. -/
def oremove (o : Obj) (k : String) : Obj :=
  o.filter (fun p => p.1 ≠ k)

/-- `Object.assign(dst, src)`: copy the source entries into `dst` in order. -/
def assign (dst : Obj) : Obj → Obj
  | [] => dst
  | (k, v) :: rest => assign (oset dst k v) rest

/-- JS truthiness. Objects, arrays, dates and instances are always truthy;
`undefined`, the empty string, `0` and `false` are falsy. -/
def truthy : Value → Bool
  | .vUndef => false
  | .vStr s => s ≠ ""
  | .vNum n => n ≠ 0
  | .vBool b => b
  | .vOps _ => true
  | .vDate _ _ _ => true
  | .vObj _ => true
  | .vInst _ _ => true

/-- Optional-chained property read `v?.k`: reads through plain objects and
model instances, `undefined` otherwise. -/
def vget (v : Value) (k : String) : Value :=
  match v with
  | .vObj o => oget o k
  | .vInst _ o => oget o k
  | _ => (.vUndef : Value)

/-- A value used as an `Object.assign` source: non-objects contribute no
string-keyed entries. -/
def asObj : Value → Obj
  | .vObj o => o
  | .vInst _ o => o
  | _ => []

/-- JS string conversion, as used when a value is interpolated into a path. -/
def jsString : Value → String
  | .vUndef => "undefined"
  | .vStr s => s
  | .vNum n => toString n
  | .vBool b => if b then "true" else "false"
  | .vOps l => String.intercalate "," l
  | .vDate _ _ _ => "[date]"
  | .vObj _ => "[object Object]"
  | .vInst _ _ => "[object Object]"

/-! ### Constants (`src/ui/constants.ts`)

String values of the external `ValidationKeys` enum of
`@decaf-ts/decorator-validation` are modelled at the interface boundary
(spec §6); `DIFF` is `"different"` as fixed by the test expectation
`propsExpectancy["different"] = "email"`. -/

/-- `HTML5DateFormat`: the fixed default date format string. -/
def HTML5DateFormat : String := "yyyy-MM-dd"

/-- `Object.keys(ValidatableByAttribute)`: the constraint keys translated
into attribute values, in declaration order. -/
def attributeKeys : List String :=
  ["required", "min", "max", "step", "minlength", "maxlength", "pattern",
   "equals", "different", "lessthan", "lessthanorequal", "greaterthan",
   "greaterthanorequal"]

/-- `Object.keys(ValidatableByType)`: the constraint keys that imply an
input category. -/
def typeKeys : List String := ["email", "url", "date", "password"]

/-- `RenderingEngine.translate`: bidirectional mapping between semantic base
types and HTML input categories (`Rendering.ts` lines 95–133). `toView`
maps a base type to an input category; otherwise an input category maps
back to a base type. Unmatched keys pass through. -/
def translate (key : String) (toView : Bool) : String :=
  if toView then
    if key = "string" then "text"
    else if key = "number" then "number"
    else if key = "bigint" then "number"
    else if key = "boolean" then "checkbox"
    else if key = "date" then "date"
    else key
  else
    if key = "select" ∨ key = "text" ∨ key = "email" ∨ key = "color" ∨
       key = "password" ∨ key = "tel" ∨ key = "url" ∨ key = "search" ∨
       key = "hidden" ∨ key = "textarea" ∨ key = "radio" then "string"
    else if key = "number" then "number"
    else if key = "checkbox" then "boolean"
    else if key = "date" ∨ key = "datetime-local" ∨ key = "time" then "date"
    else key

/-- JS `String.prototype.toLowerCase` on the ASCII type names used here
(character-wise lower-casing). -/
def jsToLower (s : String) : String := String.mk (s.data.map Char.toLower)

/-! ### Value formatting (`src/ui/utils.ts`) -/

/-- Zero-padding of a date field to two digits. -/
def pad2 (n : Int) : String :=
  if 0 ≤ n ∧ n < 10 then "0" ++ toString n else toString n

/-- Token substitution over the format string characters. -/
def fmtRun : List Char → Int → Int → Int → List Char
  | 'y' :: 'y' :: 'y' :: 'y' :: rest, y, m, d => (toString y).data ++ fmtRun rest y m d
  | 'M' :: 'M' :: rest, y, m, d => (pad2 m).data ++ fmtRun rest y m d
  | 'd' :: 'd' :: rest, y, m, d => (pad2 d).data ++ fmtRun rest y m d
  | c :: rest, y, m, d => c :: fmtRun rest y m d
  | [], _, _, _ => []

/-- `formatDate` of `@decaf-ts/decorator-validation`, modelled at the
interface boundary (spec §6): substitutes the `yyyy`, `MM` and `dd` tokens
of the format string with the date's zero-padded fields; an unparseable
date renders as `Invalid Date`. -/
def formatDate (d : Option (Int × Int × Int)) (fmt : String) : String :=
  match d with
  | none => "Invalid Date"
  | some (y, m, dd) => String.mk (fmtRun fmt.data y m dd)

/-- `new Date(value)`: only values already carrying a date convert; other
values give an invalid date in the scenarios considered here. -/
def toJSDate : Value → Option (Int × Int × Int)
  | .vDate y m d => some (y, m, d)
  | _ => none

/-- `formatByType` (`utils.ts` lines 10–20): the `date` type is formatted
with the supplied format string falling back to `HTML5DateFormat`; every
other type returns the raw value unchanged. -/
def formatByType (ty : Value) (value : Value) (fmtArg : Value) : Value :=
  if ty = .vStr "date" then
    .vStr (formatDate (toJSDate value)
      (if truthy fmtArg then jsString fmtArg else HTML5DateFormat))
  else value

/-- `escapeHtml` (`utils.ts` lines 31–42): falsy input gives `undefined`;
otherwise `&`, `<` and `>` are replaced by their entities. -/
def escapeHtml (value : String) : Option String :=
  if value = "" then none
  else some (String.join (value.data.map (fun c =>
    if c = '&' then "&amp;"
    else if c = '<' then "&lt;"
    else if c = '>' then "&gt;"
    else String.mk [c])))

/-! ### Validation translation (`src/ui/Rendering.ts`) -/

/-- `RenderingEngine.isValidatableByAttribute`. -/
def isValidatableByAttribute (key : String) : Bool :=
  attributeKeys.contains key

/-- `RenderingEngine.isValidatableByType`. -/
def isValidatableByType (key : String) : Bool :=
  typeKeys.contains key

/-- Error values raised by the source: `RenderingError`, the plain `Error`
of `toAttributeValue`, the implicit `TypeError`s of undefined property
access, and the stack exhaustion of unbounded recursion. -/
inductive RErr where
  | renderingError : String → RErr
  | invalidAttributeKey : String → RErr
  | typeError : RErr
  | stackOverflow : RErr
  deriving Repr, DecidableEq

/-- The message of the `toAttributeValue` error, enumerating the allowed
attribute keys. -/
def invalidKeyMsg (key : String) : String :=
  "Invalid attribute key \"" ++ key ++ "\". Expected one of: " ++
    String.intercalate ", " attributeKeys ++ "."

/-- `RenderingEngine.toAttributeValue` (`Rendering.ts` lines 189–199):
rejects keys outside `ValidatableByAttribute` with an error naming the
allowed set; `required` yields `true`, every other key its configured
metadata value. -/
def toAttributeValue (key : String) (value : Obj) : Except RErr Value :=
  if ¬ isValidatableByAttribute key then
    .error (.invalidAttributeKey (invalidKeyMsg key))
  else .ok (if key = "required" then .vBool true else oget value key)

/-- One validation fragment: a constraint key together with its
`ValidationMetadata` record. -/
structure VDec where
  key : String
  props : Obj
  deriving Repr

/-- The loop over the remaining validation fragments of the `element`
branch (`Rendering.ts` lines 423–437): attribute-validatable keys are
translated and merged; type-validatable keys set the resolved `type` (and
for `date` the `format`); every other key falls through both guards and is
skipped. -/
def applyValidationDecs : List VDec → Obj → Except RErr Obj
  | [], props => .ok props
  | d :: rest, props =>
    if isValidatableByAttribute d.key then do
      let v ← toAttributeValue d.key d.props
      applyValidationDecs rest (oset props (translate d.key true) v)
    else if isValidatableByType d.key then
      let props :=
        if d.key = "date" then
          oset props "format"
            (if truthy (oget d.props "format") then oget d.props "format"
             else .vStr HTML5DateFormat)
        else props
      applyValidationDecs rest (oset props "type" (.vStr d.key))
    else applyValidationDecs rest props

/-! ### Rendering engine registry (`src/ui/Rendering.ts` lines 537–591) -/

/-- A rendering engine instance: its flavour and an identity tag
distinguishing instances. -/
structure Engine where
  flavour : String
  id : Nat
  deriving Repr, DecidableEq

/-- The static registry state: the flavour-keyed cache and the current
default engine. In the source only `register` writes the cache, so it
holds live instances. -/
structure RegState where
  cache : List (String × Engine)
  current : Option Engine
  deriving Repr, DecidableEq

/-- `RenderingEngine.register`: fails when the flavour is already cached;
otherwise stores the engine in the cache and makes it current. -/
def Engine.registerE (s : RegState) (e : Engine) : Except String RegState :=
  if s.cache.any (fun p => p.1 = e.flavour) then
    .error ("Rendering engine under " ++ e.flavour ++ " already exists")
  else .ok ⟨s.cache ++ [(e.flavour, e)], some e⟩

/-- `RenderingEngine.getOrBoot` applied to a live instance returns it
unchanged; the constructor path never arises for a cache written only by
`register`. -/
def Engine.getOrBoot (e : Engine) : Engine := e

/-- `RenderingEngine.get`: with no flavour, boots the current engine
(`new undefined()` raises when none was ever registered); with a flavour,
fails when unknown, else boots the cached engine. -/
def Engine.getE (s : RegState) (flavour : Option String) : Except String Engine :=
  match flavour with
  | none =>
    match s.current with
    | some e => .ok (Engine.getOrBoot e)
    | none => .error "TypeError"
  | some f =>
    match s.cache.find? (fun p => p.1 = f) with
    | some p => .ok (Engine.getOrBoot p.2)
    | none => .error ("Rendering engine under " ++ f ++ " does not exist")

instance : BEq Value := ⟨Value.beq⟩

instance : LawfulBEq Value where
  eq_of_beq := Value.eq_of_beq
  rfl := Value.beq_refl _

/-! ### Metadata model

Property-level annotation fragments attached by the decorators of
`src/ui/decorators.ts` and read back through the `Model.*` helpers
(`model/overrides.ts` matured form). The reflection store is embedded as
explicit per-class records. -/

/-- The decoration keys: the placements `prop` / `element` / `child` /
`listprop` and the modifiers `hidden` / `order` / `page` / `layoutprop`.
`UIKeys.HIDDEN = "hidden"` is from `constants.ts`; the `ORDER`, `PAGE` and
`UILAYOUTPROP` constants are referenced by `Rendering.ts` and
`decorators.ts` but their defining constants file revision is absent, so
their string values are modelled from the spec (§6 modifier keys `hidden`,
`order`, `layout-prop`, `page`). -/
inductive DecKey where
  | prop : DecKey
  | element : DecKey
  | child : DecKey
  | listprop : DecKey
  | hiddenDec : DecKey
  | orderDec : DecKey
  | pageDec : DecKey
  | layoutDec : DecKey
  | other : String → DecKey
  deriving Repr, DecidableEq

/-- The string form of a decoration key, as used for `${dec.key}`
interpolation and the computed property name `{[dec.key]: uiProps}`. -/
def decKeyStr : DecKey → String
  | .prop => "prop"
  | .element => "element"
  | .child => "child"
  | .listprop => "listprop"
  | .hiddenDec => "hidden"
  | .orderDec => "order"
  | .pageDec => "page"
  | .layoutDec => "layoutprop"
  | .other s => s

/-- The metadata of one annotated property: its name, its decoration
entries in `Object.entries` order, its validation fragment list
(`validationDecorators[key]`, absent when the property carries no
validation metadata), and whether its declared type is a registered model
(the reflection fact consumed by the external `Model.isPropertyModel`). -/
structure PropMeta where
  name : String
  decs : List (DecKey × Value)
  validations : Option (List VDec)
  isModelType : Bool
  deriving Repr

/-- The metadata of one model class: the already-filtered class decorator
bundles (`uimodel` / `uilistmodel` / `handlers` / `uilayout`, in that
order) and the annotated properties in enumeration order. -/
structure ClassMeta where
  classDecorators : List Obj
  props : List PropMeta
  deriving Repr

/-- The model/metadata registry keyed by class name (`Model.get` and the
reflection store, conflated at the interface boundary). -/
abbrev Registry := List (String × ClassMeta)

/-- Class lookup by name. -/
def lookupClass (reg : Registry) (n : String) : Option ClassMeta :=
  (reg.find? (fun p => p.1 = n)).map (fun p => p.2)

/-- Whether a decoration key is one of the three placements checked by
`Model.uiTypeOf`. -/
def isPlacement : DecKey → Bool
  | .prop => true
  | .element => true
  | .child => true
  | _ => false

/-- The `RenderingError` message for conflicting placements. -/
def conflictMsg : String :=
  "Only one type of decoration is allowed. Please choose between @uiprop, @uichild or @uielement"

/-- `Model.uiTypeOf` (matured `model/overrides.ts`): filters the
property's decoration keys to the placements; none found or more than one
found is a `RenderingError`, otherwise the single placement's metadata is
returned. -/
def uiTypeOf (className : String) (pm : PropMeta) : Except RErr Value :=
  match pm.decs.filter (fun d => isPlacement d.1) with
  | [] => .error (.renderingError
      ("No UI type metadata found for property \"" ++ pm.name ++
       "\" on model \"" ++ className ++ "\""))
  | [k] => .ok k.2
  | _ => .error (.renderingError conflictMsg)

/-- The stored metadata of one decoration key of the property
(`Metadata.get` on the per-property key), `undefined` when absent. -/
def lookupDec (pm : PropMeta) (k : DecKey) : Value :=
  match pm.decs.find? (fun d => d.1 = k) with
  | none => .vUndef
  | some d => d.2

/-- The external `Model.isPropertyModel`, modelled at the interface
boundary: a property is a model when its current value is a model instance
or its declared type is a registered model. -/
def isPropertyModel (pm : PropMeta) (model : Value) : Bool :=
  match vget model pm.name with
  | .vInst _ _ => true
  | _ => pm.isModelType

/-- The decoration-entry sort of `toFieldDefinition`
(`.sort((a) => [ELEMENT, CHILD].includes(a.key) ? -1 : 1)`): the
placement entry among `element`/`child` (unique, since `uiTypeOf` already
enforced a single placement) moves to the front; the other entries keep
their relative order, matching the engine's binary insertion sort on this
comparator. -/
def placementFirst (l : List (DecKey × Value)) : List (DecKey × Value) :=
  l.filter (fun d => d.1 = .element ∨ d.1 = .child) ++
    l.filter (fun d => ¬ (d.1 = .element ∨ d.1 = .child))

/-! ### The field-definition tree -/

/-- `FieldDefinition`: one compiled node of the output tree. Element
leaves carry only `tag` and `props`; the root additionally carries the
`item` descriptor, the sorted and filtered `children`, and — when
`generateId` — the `rendererId`. -/
inductive FieldDef where
  | mk : (tag : Value) → (props : Obj) → (item : Option Obj) →
      (children : Option (List FieldDef)) → (rendererId : Option String) → FieldDef
  deriving Repr

/-- The node's tag. -/
def FieldDef.tag : FieldDef → Value
  | .mk t _ _ _ _ => t

/-- The node's props map. -/
def FieldDef.props : FieldDef → Obj
  | .mk _ p _ _ _ => p

/-- The node's item descriptor. -/
def FieldDef.item : FieldDef → Option Obj
  | .mk _ _ i _ _ => i

/-- The node's children. -/
def FieldDef.children : FieldDef → Option (List FieldDef)
  | .mk _ _ _ c _ => c

/-- The node's rendererId. -/
def FieldDef.rendererId : FieldDef → Option String
  | .mk _ _ _ _ r => r

/-- Replace the node's props (the in-place `child.props = ...` write). -/
def FieldDef.withProps : FieldDef → Obj → FieldDef
  | .mk t _ i c r, p => .mk t p i c r

/-- The mutable state of one `toFieldDefinition` invocation: the
accumulating `children` list (`undefined` until first used), the
`childProps` accumulator and the list `mapper`. -/
structure BuildSt where
  children : Option (List FieldDef)
  childProps : Obj
  mapper : Obj
  deriving Repr

/-- The class-decorator context destructured at the top of
`toFieldDefinition`: `tag`, `props` and `item` of the merged class
decorator. -/
structure ClassCtx where
  tag : Value
  cprops : Value
  item : Value
  deriving Repr

/-- `getPath`: the dot-joined ancestor path (`parent ? [parent,
prop].join(".") : prop`). -/
def getPath (parent : Value) (prop : String) : String :=
  if truthy parent then jsString parent ++ "." ++ prop else prop

/-- The sort key of the children sort: `a?.props?.order ?? 0`. -/
def orderKey (c : FieldDef) : Int :=
  match oget c.props "order" with
  | .vNum n => n
  | _ => 0

/-- Stable insertion of a child in front of the first strictly greater
sibling; together with `sortChildren` this realizes the stable
`Array.prototype.sort` by `order` difference. -/
def insertOrd (x : FieldDef) : List FieldDef → List FieldDef
  | [] => [x]
  | y :: ys => if orderKey y < orderKey x then y :: insertOrd x ys
               else x :: y :: ys

/-- The children sort `(a, b) => (a?.props?.order ?? 0) - (b?.props?.order
?? 0)`: the unique stable sort by the numeric order key. -/
def sortChildren : List FieldDef → List FieldDef
  | [] => []
  | x :: xs => insertOrd x (sortChildren xs)

/-- `hiddenOn`: the hidden-operations set read from the node
(`(item?.props?.hidden as CrudOperationKeys[]) || []`). -/
def hiddenOpsOf (v : Value) : List String :=
  match v with
  | .vOps l => l
  | _ => []

/-- Array `includes` of the context operation in a string array. -/
def opIncluded (l : List String) (op : Value) : Bool :=
  match op with
  | .vStr s => l.contains s
  | _ => false

/-- The visibility filter of `toFieldDefinition` (lines 493–497): a child
survives when its hidden-operations set is empty or does not include the
active operation. -/
def keepChild (operation : Value) (c : FieldDef) : Bool :=
  let hiddenOn := hiddenOpsOf (oget c.props "hidden")
  if hiddenOn.isEmpty then true
  else if ¬ opIncluded hiddenOn operation then true
  else false

/-- Mutation of the first matching element of the children array, as done
through the reference returned by `children.find`. -/
def updateFirst (p : FieldDef → Bool) (f : FieldDef → FieldDef) :
    List FieldDef → List FieldDef
  | [] => []
  | c :: cs => if p c then f c :: cs else c :: updateFirst p f cs

/-- The class name of a runtime value (`model.constructor.name`). -/
def instClassName : Value → String
  | .vInst n _ => n
  | .vObj _ => "Object"
  | .vDate _ _ _ => "Date"
  | .vStr _ => "String"
  | .vNum _ => "Number"
  | .vBool _ => "Boolean"
  | .vOps _ => "Array"
  | .vUndef => "undefined"

/-- `generateUIModelID` (`utils.ts`). The external `findModelId` is
modelled from the spec: the id is the model's primary-key value (its `id`
property here) with a timestamp fallback, concatenated after the class
name. -/
def generateUIModelID (model : Value) : String :=
  let idv := vget model "id"
  instClassName model ++ "-" ++ (if truthy idv then jsString idv else "0")

/-! ### The builder (`RenderingEngine.toFieldDefinition`, lines 232–507) -/

/-- One arm of the decoration switch of `toFieldDefinition` for one
property. `recurse` is the nested `this.toFieldDefinition(·, ·, false)`
call of the `child` branch. -/
def processDec (recurse : Value → Obj → Except RErr FieldDef) (reg : Registry)
    (model : Value) (ctx : ClassCtx) (pm : PropMeta) (globalProps : Obj)
    (st : BuildSt) (dk : DecKey) (dv : Value) : Except RErr BuildSt :=
  match dk with
  | .prop => .ok { st with childProps := oset st.childProps pm.name dv }
  | .child =>
    if ¬ isPropertyModel pm model then
      .error (.renderingError ("Child \"" ++ pm.name ++ "\" must be a model."))
    else
      let submodel := vget model pm.name
      let constructable : Bool :=
        match submodel with
        | .vInst _ _ => true
        | .vObj _ => true
        | .vDate _ _ _ => true
        | _ => false
      let clazzE : Except RErr Value :=
        if ¬ constructable then
          match lookupClass reg (jsString (vget (vget dv "props") "name")) with
          | some _ => .ok (.vInst (jsString (vget (vget dv "props") "name")) [])
          | none => .error .typeError
        else .ok .vUndef
      do
        let clazz ← clazzE
        let cgp := assign globalProps
          [("model", clazz), ("inheritProps", dv),
           ("childOf", .vStr (getPath (oget globalProps "childOf") pm.name))]
        let target := if truthy submodel then submodel else clazz
        let cd ← recurse target cgp
        .ok { st with children := some ((st.children.getD []) ++ [cd]) }
  | .listprop =>
    let mapper :=
      if truthy (vget dv "name") then
        oset st.mapper (jsString (vget dv "name")) (.vStr pm.name)
      else st.mapper
    let p := assign (assign (assign (assign [] (asObj (vget ctx.cprops "item")))
      (asObj (vget ctx.item "props"))) (asObj (vget dv "props"))) globalProps
    let newTag : Value :=
      if truthy (vget ctx.item "tag") then vget ctx.item "tag"
      else if truthy (oget p "render") then oget p "render"
      else .vStr ""
    let newChildProps : Obj :=
      [("tag", newTag),
       ("props", .vObj (assign (assign (assign []
          (asObj (oget st.childProps "props"))) [("mapper", .vObj mapper)]) p))]
    .ok { st with childProps := newChildProps, mapper := mapper }
  | .other s => .error (.renderingError ("Invalid key: " ++ s))
  | _ =>
    let uiProps := dv
    let namev := vget (vget uiProps "props") "name"
    let p := assign (assign (assign (assign []
        (asObj (oget st.childProps "props"))) (asObj (vget uiProps "props")))
        (if truthy namev then
          [("path", .vStr (getPath (oget globalProps "childOf") (jsString namev))),
           ("childOf", .vUndef)]
         else []))
        globalProps
    if dk = .element then
      let etag : Value :=
        if truthy (vget uiProps "tag") then vget uiProps "tag"
        else if truthy (oget st.childProps "tag") then oget st.childProps "tag"
        else if truthy ctx.tag then ctx.tag
        else .vStr ""
      match pm.validations with
      | none => .error .typeError
      | some vds => do
        let p2 ← applyValidationDecs vds.tail p
        let p3 ←
          if ¬ truthy (oget p2 "type") then
            match vds.head? with
            | none => .error .typeError
            | some td =>
              match oget td.props "name" with
              | .vStr s => .ok (oset p2 "type" (.vStr (translate (jsToLower s) true)))
              | _ => .error .typeError
          else .ok p2
        let p4 := oset p3 "value"
          (formatByType (oget p3 "type") (vget model pm.name) (oget p3 "format"))
        let node : FieldDef := .mk etag p4 none none none
        .ok { st with children := some ((st.children.getD []) ++ [node]) }
    else
      let children0 := st.children.getD []
      let pred : FieldDef → Bool := fun c =>
        (oget c.props "name" == Value.vStr pm.name) ||
          (decide (dk = .layoutDec ∨ dk = .pageDec) &&
            (oget c.props "childOf" == Value.vStr pm.name))
      let upd : FieldDef → FieldDef := fun c =>
        if dk ≠ .layoutDec then
          c.withProps (assign (assign [] c.props) [(decKeyStr dk, uiProps)])
        else
          c.withProps (assign (assign (assign (assign [] (asObj (vget dv "props")))
            c.props) (asObj (vget dv "row"))) (asObj (vget dv "col")))
      .ok { st with children := some (updateFirst pred upd children0) }

/-- The per-property body of the `for (const key of uiDecorators)` loop:
`uiTypeOf` enforces the single placement, the orphan-`hidden` check fires,
and the sorted decoration entries run through `processDec`. -/
def processProp (recurse : Value → Obj → Except RErr FieldDef) (reg : Registry)
    (model : Value) (className : String) (ctx : ClassCtx) (globalProps : Obj)
    (st : BuildSt) (pm : PropMeta) : Except RErr BuildSt := do
  let ty ← uiTypeOf className pm
  if truthy ty then
    if truthy (lookupDec pm .hiddenDec) && ! truthy (lookupDec pm .element) then
      .error (.renderingError ("@uielement no found in \"" ++ pm.name ++
        "\". It is required to use hiddenOn decorator."))
    else
      (placementFirst pm.decs).foldlM
        (fun st d => processDec recurse reg model ctx pm globalProps st d.1 d.2) st
  else .error (.renderingError conflictMsg)

/-- `RenderingEngine.toFieldDefinition`: class metadata merge, property
loop, ordering/visibility post-processing, assembly. The `Nat` fuel bounds
the unguarded nesting recursion (spec §5: cyclic models exhaust the
stack); each nested `child` build runs with one unit less and with
`generateId` forced `false`. -/
def toFieldDefinition (reg : Registry) :
    Nat → Value → Obj → Bool → Except RErr FieldDef
  | 0, _, _, _ => .error .stackOverflow
  | fuel + 1, model, globalProps0, generateId => do
    let inheritProps := oget globalProps0 "inheritProps"
    let globalProps := oremove globalProps0 "inheritProps"
    let className := instClassName model
    let cds := ((lookupClass reg className).map (fun c => c.classDecorators)).getD []
    if cds.isEmpty then
      .error (.renderingError ("No ui definitions set for model " ++ className ++
        ". Did you use @uimodel?"))
    else
      let classDecorator :=
        (cds ++ [if truthy inheritProps then asObj inheritProps else []]).foldl assign []
      let tag := oget classDecorator "tag"
      let cprops := oget classDecorator "props"
      let item := oget classDecorator "item"
      let handlers := oget classDecorator "handlers"
      let childProps0 := asObj (vget item "props")
      let pms := ((lookupClass reg className).map (fun c => c.props)).getD []
      let st ← pms.foldlM
        (fun st pm =>
          processProp (fun m gp => toFieldDefinition reg fuel m gp false)
            reg model className ⟨tag, cprops, item⟩ globalProps st pm)
        ⟨none, childProps0, []⟩
      let globalProps2 := assign (assign (assign [] (asObj cprops)) globalProps)
        [("handlers", if truthy handlers then handlers else .vObj [])]
      let operation := oget globalProps2 "operation"
      let children2 := st.children.map
        (fun cs => (sortChildren cs).filter (keepChild operation))
      .ok (.mk tag globalProps2 (some st.childProps) children2
        (if generateId then some (generateUIModelID model) else none))

/-! ### Object-operation lemmas -/

/-- The keys of an object in insertion order. -/
def keysOf (o : Obj) : List String :=
  o.map (fun p => p.1)

/-- Lookup of the last occurrence of a key, describing the net effect of
an `Object.assign` source. -/
def olook : Obj → String → Option Value
  | [], _ => none
  | (k1, v1) :: rest, k =>
    match olook rest k with
    | some w => some w
    | none => if k1 = k then some v1 else none

theorem oget_nil (k : String) : oget [] k = .vUndef := rfl

theorem oget_cons (k1 : String) (v1 : Value) (o : Obj) (k : String) :
    oget ((k1, v1) :: o) k = if k1 = k then v1 else oget o k := by
  by_cases h : k1 = k <;> simp [oget, List.find?, h]

theorem oget_oset_self (o : Obj) (k : String) (v : Value) :
    oget (oset o k v) k = v := by
  induction o with
  | nil => simp [oset, oget_cons]
  | cons p rest ih =>
    obtain ⟨k1, v1⟩ := p
    by_cases h : k1 = k <;> simp [oset, h, oget_cons, ih]

theorem oget_oset_ne (o : Obj) (k k' : String) (v : Value) (h : k' ≠ k) :
    oget (oset o k' v) k = oget o k := by
  induction o with
  | nil => simp [oset, oget_cons, h]
  | cons p rest ih =>
    obtain ⟨k1, v1⟩ := p
    by_cases h1 : k1 = k' <;> simp [oset, h1, oget_cons, ih, h]

theorem hasKey_nil (k : String) : hasKey [] k = false := rfl

theorem hasKey_cons (k1 : String) (v1 : Value) (o : Obj) (k : String) :
    hasKey ((k1, v1) :: o) k = (decide (k1 = k) || hasKey o k) := by
  simp [hasKey, List.any]

theorem oget_of_not_hasKey (o : Obj) (k : String) (h : hasKey o k = false) :
    oget o k = .vUndef := by
  induction o with
  | nil => rfl
  | cons p rest ih =>
    obtain ⟨k1, v1⟩ := p
    rw [hasKey_cons] at h
    simp only [Bool.or_eq_false_iff, decide_eq_false_iff_not] at h
    rw [oget_cons, if_neg h.1]
    exact ih h.2

theorem olook_of_not_hasKey (o : Obj) (k : String) (h : hasKey o k = false) :
    olook o k = none := by
  induction o with
  | nil => rfl
  | cons p rest ih =>
    obtain ⟨k1, v1⟩ := p
    rw [hasKey_cons] at h
    simp only [Bool.or_eq_false_iff, decide_eq_false_iff_not] at h
    simp [olook, ih h.2, h.1]

theorem assign_nil (dst : Obj) : assign dst [] = dst := rfl

theorem assign_cons (dst : Obj) (k : String) (v : Value) (rest : Obj) :
    assign dst ((k, v) :: rest) = assign (oset dst k v) rest := rfl

theorem oget_assign (dst src : Obj) (k : String) :
    oget (assign dst src) k = (olook src k).getD (oget dst k) := by
  induction src generalizing dst with
  | nil => simp [assign, olook]
  | cons p rest ih =>
    obtain ⟨k1, v1⟩ := p
    rw [assign_cons, ih]
    cases holr : olook rest k with
    | some w => simp [olook, holr]
    | none =>
      by_cases h : k1 = k
      · subst h
        simp [olook, holr, oget_oset_self]
      · simp [olook, holr, h, oget_oset_ne dst k k1 v1 h]

theorem oget_assign_of_not_hasKey (dst src : Obj) (k : String)
    (h : hasKey src k = false) : oget (assign dst src) k = oget dst k := by
  rw [oget_assign, olook_of_not_hasKey src k h]
  rfl

theorem mem_keysOf_iff_hasKey (o : Obj) (k : String) :
    k ∈ keysOf o ↔ hasKey o k = true := by
  induction o with
  | nil => simp [keysOf, hasKey_nil]
  | cons p rest ih =>
    obtain ⟨k1, v1⟩ := p
    rw [hasKey_cons]
    by_cases h : k1 = k
    · subst h
      simp [keysOf]
    · have h' : ¬ k = k1 := fun hh => h hh.symm
      have hcons : keysOf ((k1, v1) :: rest) = k1 :: keysOf rest := rfl
      rw [hcons]
      simp only [List.mem_cons, h', false_or]
      rw [ih]
      simp [h]

theorem hasKey_oset (o : Obj) (k k' : String) (v : Value) :
    hasKey (oset o k' v) k = (decide (k' = k) || hasKey o k) := by
  induction o with
  | nil => simp [oset, hasKey_cons, hasKey_nil]
  | cons p rest ih =>
    obtain ⟨k1, v1⟩ := p
    by_cases h : k1 = k' <;> by_cases h2 : k1 = k <;> by_cases h3 : k' = k <;>
      simp_all [oset, hasKey_cons]

theorem hasKey_assign (dst src : Obj) (k : String) :
    hasKey (assign dst src) k = (hasKey dst k || hasKey src k) := by
  induction src generalizing dst with
  | nil => simp [assign, hasKey_nil]
  | cons p rest ih =>
    obtain ⟨k1, v1⟩ := p
    rw [assign_cons, ih, hasKey_oset, hasKey_cons]
    by_cases h : k1 = k <;> by_cases h2 : hasKey dst k <;> simp [h, h2]

theorem keysOf_oset_of_not_hasKey (o : Obj) (k : String) (v : Value)
    (h : hasKey o k = false) : keysOf (oset o k v) = keysOf o ++ [k] := by
  induction o with
  | nil => simp [oset, keysOf]
  | cons p rest ih =>
    obtain ⟨k1, v1⟩ := p
    rw [hasKey_cons] at h
    simp only [Bool.or_eq_false_iff, decide_eq_false_iff_not] at h
    simp only [oset, if_neg h.1, keysOf, List.map_cons, List.cons_append,
      List.cons.injEq, true_and]
    have := ih h.2
    simpa [keysOf] using this

theorem keysOf_oset_of_hasKey (o : Obj) (k : String) (v : Value)
    (h : hasKey o k = true) : keysOf (oset o k v) = keysOf o := by
  induction o with
  | nil => simp [hasKey_nil] at h
  | cons p rest ih =>
    obtain ⟨k1, v1⟩ := p
    by_cases h1 : k1 = k
    · simp only [oset, if_pos h1, keysOf, List.map_cons]
      rw [h1]
    · rw [hasKey_cons] at h
      have hh : hasKey rest k = true := by
        cases hr : hasKey rest k with
        | true => rfl
        | false => rw [hr] at h; simp [h1] at h
      simp only [oset, if_neg h1, keysOf, List.map_cons, List.cons.injEq, true_and]
      have := ih hh
      simpa [keysOf] using this

/-- Key-uniqueness is preserved by property writes. -/
theorem nodup_keys_oset (o : Obj) (k : String) (v : Value)
    (h : (keysOf o).Nodup) : (keysOf (oset o k v)).Nodup := by
  cases hh : hasKey o k with
  | true => rw [keysOf_oset_of_hasKey o k v hh]; exact h
  | false =>
    rw [keysOf_oset_of_not_hasKey o k v hh]
    rw [List.nodup_append]
    refine ⟨h, List.nodup_singleton k, ?_⟩
    intro a ha hb
    simp only [List.mem_singleton] at hb
    subst hb
    rw [mem_keysOf_iff_hasKey] at ha
    rw [ha] at hh
    cases hh

/-- Key-uniqueness is preserved by `Object.assign`. -/
theorem nodup_keys_assign (dst src : Obj) (h : (keysOf dst).Nodup) :
    (keysOf (assign dst src)).Nodup := by
  induction src generalizing dst with
  | nil => exact h
  | cons p rest ih =>
    obtain ⟨k1, v1⟩ := p
    rw [assign_cons]
    exact ih _ (nodup_keys_oset dst k1 v1 h)

/-- On an object with unique keys (as every object built by the engine
is), first-occurrence read and last-occurrence lookup agree. -/
theorem olook_eq_of_nodup (o : Obj) (k : String) (h : (keysOf o).Nodup)
    (hh : hasKey o k = true) : olook o k = some (oget o k) := by
  induction o with
  | nil => simp [hasKey_nil] at hh
  | cons p rest ih =>
    obtain ⟨k1, v1⟩ := p
    have hcons : keysOf ((k1, v1) :: rest) = k1 :: keysOf rest := rfl
    rw [hcons, List.nodup_cons] at h
    rw [hasKey_cons] at hh
    by_cases h1 : k1 = k
    · subst h1
      have hrest : hasKey rest k1 = false := by
        cases hr : hasKey rest k1 with
        | false => rfl
        | true => exact absurd ((mem_keysOf_iff_hasKey rest k1).mpr hr) h.1
      simp [olook, olook_of_not_hasKey rest k1 hrest, oget_cons]
    · have hh2 : hasKey rest k = true := by
        cases hr : hasKey rest k with
        | true => rfl
        | false => rw [hr] at hh; simp [h1] at hh
      rw [oget_cons, if_neg h1]
      simp [olook, ih h.2 hh2]

theorem oget_assign_of_nodup (dst src : Obj) (k : String)
    (hn : (keysOf src).Nodup) (hh : hasKey src k = true) :
    oget (assign dst src) k = oget src k := by
  rw [oget_assign, olook_eq_of_nodup src k hn hh]
  rfl

theorem oremove_of_not_hasKey (o : Obj) (k : String) (h : hasKey o k = false) :
    oremove o k = o := by
  induction o with
  | nil => rfl
  | cons p rest ih =>
    obtain ⟨k1, v1⟩ := p
    rw [hasKey_cons] at h
    simp only [Bool.or_eq_false_iff, decide_eq_false_iff_not] at h
    have hrest := ih h.2
    simp only [oremove] at hrest ⊢
    rw [List.filter_cons, if_pos (by simp [h.1]), hrest]

/-! ### Claims C1, C2, C3, C10 -/

/-- Element metadata of a plain `@uielement("ngx-input")` on property `a`. -/
def bogusElemMeta : Value :=
  .vObj [("tag", .vStr "ngx-input"), ("serialize", .vBool false),
         ("props", .vObj [("name", .vStr "a")])]

/-- A registry with one model whose single element property carries a
validation fragment with the unrecognized key `bogusKey`. -/
def bogusReg : Registry :=
  [("BogusModel",
    { classDecorators := [[("tag", .vStr "form-x")]],
      props := [{ name := "a", decs := [(.element, bogusElemMeta)],
                  validations := some [⟨"type", [("name", .vStr "String")]⟩,
                    ⟨"bogusKey", [("bogusKey", .vStr "v")]⟩],
                  isModelType := false }] })]

/-- An instance of the bogus-key model. -/
def bogusInst : Value := .vInst "BogusModel" [("a", .vStr "x")]

/-- C1 counterexample: on a model whose element property carries the
validation fragment key `bogusKey`, `build` does not raise — it returns a
tree whose node simply lacks the bogus attribute, refuting the claim that
an `InvalidAttributeKey` error is raised and no tree returned. -/
theorem C1_counterexample :
    ∃ t, toFieldDefinition bogusReg 2 bogusInst [] true = .ok t ∧
      (t.children.getD []).map (fun c => hasKey c.props "bogusKey") = [false] := by
  refine ⟨_, rfl, ?_⟩
  rfl

/-- C1 (amended): a validation fragment whose key is in neither the
attribute set nor the type set is silently skipped by the build's
validation loop (the tree is still produced without it); the
`InvalidAttributeKey` error enumerating the allowed keys is raised only
when `toAttributeValue` itself is invoked with such a key, which the
guarded loop never does. -/
theorem C1_unrecognized_keys_skipped :
    (∀ vds props, applyValidationDecs vds props =
      applyValidationDecs (vds.filter (fun d =>
        isValidatableByAttribute d.key || isValidatableByType d.key)) props) ∧
    (∀ key v, isValidatableByAttribute key = false →
      toAttributeValue key v = .error (.invalidAttributeKey (invalidKeyMsg key))) := by
  constructor
  · intro vds
    induction vds with
    | nil => intro props; rfl
    | cons d rest ih =>
      intro props
      by_cases ha : isValidatableByAttribute d.key
      · have hv : toAttributeValue d.key d.props =
            .ok (if d.key = "required" then .vBool true else oget d.props d.key) := by
          simp [toAttributeValue, ha]
        simp [applyValidationDecs, ha, hv, List.filter_cons, ih]
      · by_cases ht : isValidatableByType d.key
        · simp [applyValidationDecs, ha, ht, List.filter_cons, ih]
        · simp [applyValidationDecs, ha, ht, List.filter_cons, ih]
  · intro key v h
    simp [toAttributeValue, h]

/-- C1 witness: the `bogusKey` fragment is dropped by the loop and is
rejected by a direct `toAttributeValue` call. -/
theorem C1_witness :
    applyValidationDecs [⟨"bogusKey", [("bogusKey", .vStr "v")]⟩] [] =
      applyValidationDecs [] [] ∧
    toAttributeValue "bogusKey" [] =
      .error (.invalidAttributeKey (invalidKeyMsg "bogusKey")) := by
  have h1 := C1_unrecognized_keys_skipped.1
    [⟨"bogusKey", [("bogusKey", .vStr "v")]⟩] []
  have h2 := C1_unrecognized_keys_skipped.2 "bogusKey" [] (by decide)
  exact ⟨by simpa using h1, h2⟩

/-- C2 counterexample: a string value containing `&`, `<` and `>` passes
through the value formatting unchanged — it is not HTML-escaped, even
though `escapeHtml` would have produced the entity form. -/
theorem C2_counterexample :
    formatByType (.vStr "text") (.vStr "a<b&c>d") .vUndef = .vStr "a<b&c>d" ∧
    escapeHtml "a<b&c>d" = some "a&lt;b&amp;c&gt;d" := by
  constructor <;> rfl

/-- C2 (amended): for every resolved type other than `date` the raw value
passes through `formatByType` entirely unchanged — string values are not
HTML-escaped (`escapeHtml` exists in `utils.ts` but is not applied on this
path); for the `date` type the value is formatted with the supplied
format string, falling back to the fixed default. -/
theorem C2_value_formatting :
    (∀ ty v fmt, ty ≠ Value.vStr "date" → formatByType ty v fmt = v) ∧
    (∀ v fmt, formatByType (.vStr "date") v fmt =
      .vStr (formatDate (toJSDate v)
        (if truthy fmt then jsString fmt else HTML5DateFormat))) := by
  constructor
  · intro ty v fmt h
    simp [formatByType, h]
  · intro v fmt
    simp [formatByType]

/-- C2 witness: a non-date string passes through raw; a date value is
formatted with the default format string. -/
theorem C2_witness :
    formatByType (.vStr "number") (.vStr "x&y") .vUndef = .vStr "x&y" ∧
    formatByType (.vStr "date") (.vDate 2024 3 7) .vUndef = .vStr "2024-03-07" := by
  refine ⟨C2_value_formatting.1 _ _ _ (by decide), ?_⟩
  rw [C2_value_formatting.2]
  rfl

/-- C3 counterexample: the backward (view-to-model) mapping sends the
checkbox-like category `radio` to `string`, not to `boolean` as claimed. -/
theorem C3_counterexample :
    translate "radio" false = "string" ∧ translate "radio" false ≠ "boolean" := by
  constructor
  · rfl
  · decide

/-- C3 (amended): the backward mapping sends `checkbox` to `boolean` but
`radio` to `string` (grouped with the text-like categories); `number`
maps to `number`; `date`, `datetime-local` and `time` map to `date`;
every other listed category maps to `string`. -/
theorem C3_backward_mapping :
    translate "checkbox" false = "boolean" ∧
    translate "radio" false = "string" ∧
    translate "number" false = "number" ∧
    translate "date" false = "date" ∧
    translate "datetime-local" false = "date" ∧
    translate "time" false = "date" ∧
    translate "select" false = "string" ∧
    translate "text" false = "string" ∧
    translate "email" false = "string" ∧
    translate "color" false = "string" ∧
    translate "password" false = "string" ∧
    translate "tel" false = "string" ∧
    translate "url" false = "string" ∧
    translate "search" false = "string" ∧
    translate "hidden" false = "string" ∧
    translate "textarea" false = "string" := by
  decide

/-- C10: every successful `register` makes the registered engine the
current default, so a flavourless `get` returns it — regardless of the
previous cache contents or previous default. -/
theorem C10_register_sets_current (s s' : RegState) (e : Engine)
    (h : Engine.registerE s e = .ok s') : Engine.getE s' none = .ok e := by
  unfold Engine.registerE at h
  by_cases hc : s.cache.any (fun p => p.1 = e.flavour)
  · simp [hc] at h
  · simp only [hc, Bool.false_eq_true, if_false, Except.ok.injEq] at h
    subst h
    rfl

/-- C10 witness: registering a second engine over a non-empty registry
makes it the default returned by `get()`. -/
theorem C10_witness :
    Engine.registerE ⟨[("web", ⟨"web", 0⟩)], some ⟨"web", 0⟩⟩ ⟨"native", 1⟩ =
      .ok ⟨[("web", ⟨"web", 0⟩), ("native", ⟨"native", 1⟩)], some ⟨"native", 1⟩⟩ ∧
    Engine.getE ⟨[("web", ⟨"web", 0⟩), ("native", ⟨"native", 1⟩)],
      some ⟨"native", 1⟩⟩ none = .ok ⟨"native", 1⟩ := by
  constructor
  · rfl
  · exact C10_register_sets_current ⟨[("web", ⟨"web", 0⟩)], some ⟨"web", 0⟩⟩
      _ ⟨"native", 1⟩ rfl

/-! ### Claim C9: children ordering -/

theorem insertOrd_perm (x : FieldDef) (l : List FieldDef) :
    List.Perm (insertOrd x l) (x :: l) := by
  induction l with
  | nil => rfl
  | cons y ys ih =>
    by_cases h : orderKey y < orderKey x
    · simp only [insertOrd, if_pos h]
      exact (ih.cons y).trans (List.Perm.swap x y ys)
    · simp only [insertOrd, if_neg h]
      exact List.Perm.refl _

theorem sortChildren_perm (l : List FieldDef) : List.Perm (sortChildren l) l := by
  induction l with
  | nil => rfl
  | cons x xs ih =>
    exact (insertOrd_perm x (sortChildren xs)).trans (ih.cons x)

theorem insertOrd_sorted (x : FieldDef) (l : List FieldDef)
    (h : l.Pairwise (fun a b => orderKey a ≤ orderKey b)) :
    (insertOrd x l).Pairwise (fun a b => orderKey a ≤ orderKey b) := by
  induction l with
  | nil => simp [insertOrd]
  | cons y ys ih =>
    rw [List.pairwise_cons] at h
    by_cases hlt : orderKey y < orderKey x
    · simp only [insertOrd, if_pos hlt]
      rw [List.pairwise_cons]
      refine ⟨?_, ih h.2⟩
      intro b hb
      have hb2 := List.mem_cons.mp ((insertOrd_perm x ys).mem_iff.mp hb)
      rcases hb2 with rfl | hb3
      · exact le_of_lt hlt
      · exact h.1 b hb3
    · simp only [insertOrd, if_neg hlt]
      have hle : orderKey x ≤ orderKey y := Int.not_lt.mp hlt
      rw [List.pairwise_cons]
      refine ⟨?_, List.pairwise_cons.mpr h⟩
      intro b hb
      rcases List.mem_cons.mp hb with rfl | hb2
      · exact hle
      · exact le_trans hle (h.1 b hb2)

theorem sortChildren_sorted (l : List FieldDef) :
    (sortChildren l).Pairwise (fun a b => orderKey a ≤ orderKey b) := by
  induction l with
  | nil => simp [sortChildren]
  | cons x xs ih => exact insertOrd_sorted x (sortChildren xs) ih

theorem filter_insertOrd_eq_key (x : FieldDef) (l : List FieldDef) (k : Int)
    (hx : orderKey x = k) :
    (insertOrd x l).filter (fun c => orderKey c == k) =
      x :: l.filter (fun c => orderKey c == k) := by
  induction l with
  | nil =>
    rw [show insertOrd x [] = [x] from rfl, List.filter_cons, if_pos (by simp [hx])]
  | cons y ys ih =>
    by_cases h : orderKey y < orderKey x
    · have hy : ¬ orderKey y = k := by
        intro he
        rw [he, hx] at h
        exact lt_irrefl k h
      simp only [insertOrd, if_pos h]
      rw [List.filter_cons, if_neg (by simp [hy]), ih, List.filter_cons,
        if_neg (by simp [hy])]
    · simp only [insertOrd, if_neg h]
      rw [List.filter_cons, if_pos (by simp [hx])]

theorem filter_insertOrd_ne_key (x : FieldDef) (l : List FieldDef) (k : Int)
    (hx : ¬ orderKey x = k) :
    (insertOrd x l).filter (fun c => orderKey c == k) =
      l.filter (fun c => orderKey c == k) := by
  induction l with
  | nil =>
    rw [show insertOrd x [] = [x] from rfl, List.filter_cons, if_neg (by simp [hx])]
  | cons y ys ih =>
    by_cases h : orderKey y < orderKey x
    · simp only [insertOrd, if_pos h]
      rw [List.filter_cons, ih, List.filter_cons]
    · simp only [insertOrd, if_neg h]
      rw [List.filter_cons, if_neg (by simp [hx])]

theorem sortChildren_stable (l : List FieldDef) (k : Int) :
    (sortChildren l).filter (fun c => orderKey c == k) =
      l.filter (fun c => orderKey c == k) := by
  induction l with
  | nil => rfl
  | cons x xs ih =>
    by_cases hx : orderKey x = k
    · rw [show sortChildren (x :: xs) = insertOrd x (sortChildren xs) from rfl,
        filter_insertOrd_eq_key x _ k hx, ih, List.filter_cons, if_pos (by simp [hx])]
    · rw [show sortChildren (x :: xs) = insertOrd x (sortChildren xs) from rfl,
        filter_insertOrd_ne_key x _ k hx, ih, List.filter_cons, if_neg (by simp [hx])]

theorem insertOrd_of_zero (x : FieldDef) (l : List FieldDef)
    (hx : orderKey x = 0) (h : ∀ c ∈ l, orderKey c = 0) :
    insertOrd x l = x :: l := by
  cases l with
  | nil => rfl
  | cons y ys =>
    have hy : orderKey y = 0 := h y (List.mem_cons_self y ys)
    simp [insertOrd, hy, hx]

/-- C9: the children post-processing sort of `build` is the stable sort by
the numeric order key — it sorts by the order modifier (default 0 when
absent), it permutes rather than drops children, children with equal
order keys keep their enumeration order, and a children list with no
order modifiers at all is left in declaration order. -/
theorem C9_children_ordering :
    (∀ l : List FieldDef,
      (sortChildren l).Pairwise (fun a b => orderKey a ≤ orderKey b)) ∧
    (∀ l : List FieldDef, List.Perm (sortChildren l) l) ∧
    (∀ (l : List FieldDef) (k : Int),
      (sortChildren l).filter (fun c => orderKey c == k) =
        l.filter (fun c => orderKey c == k)) ∧
    (∀ l : List FieldDef, (∀ c ∈ l, oget c.props "order" = .vUndef) →
      sortChildren l = l) := by
  refine ⟨sortChildren_sorted, sortChildren_perm, sortChildren_stable, ?_⟩
  intro l h
  have hz : ∀ c ∈ l, orderKey c = 0 := by
    intro c hc
    simp [orderKey, h c hc]
  clear h
  induction l with
  | nil => rfl
  | cons x xs ih =>
    rw [show sortChildren (x :: xs) = insertOrd x (sortChildren xs) from rfl]
    rw [ih (fun c hc => hz c (List.mem_cons_of_mem x hc))]
    exact insertOrd_of_zero x xs (hz x (List.mem_cons_self x xs))
      (fun c hc => hz c (List.mem_cons_of_mem x hc))

/-- A leaf node with no order modifier. -/
def nodeA : FieldDef := .mk (.vStr "a") [("name", .vStr "a")] none none none

/-- A second leaf node with no order modifier. -/
def nodeB : FieldDef := .mk (.vStr "b") [("name", .vStr "b")] none none none

/-- C9 witness: two unordered children keep their declaration order. -/
theorem C9_witness : sortChildren [nodeA, nodeB] = [nodeA, nodeB] :=
  C9_children_ordering.2.2.2 [nodeA, nodeB] (by
    intro c hc
    rcases List.mem_cons.mp hc with rfl | hc2
    · rfl
    · rcases List.mem_cons.mp hc2 with rfl | hc3
      · rfl
      · cases hc3)

/-! ### Bridge lemmas for the builder -/

/-- The per-property step of the main loop, with the nested recursion at
one unit less fuel. -/
def buildStep (reg : Registry) (fuel : Nat) (model : Value) (className : String)
    (ctx : ClassCtx) (globalProps : Obj) (st : BuildSt) (pm : PropMeta) :
    Except RErr BuildSt :=
  processProp (fun m gp => toFieldDefinition reg fuel m gp false)
    reg model className ctx globalProps st pm

/-- The merged class decorator of one build invocation. -/
def buildClassDecorator (cm : ClassMeta) (gp0 : Obj) : Obj :=
  (cm.classDecorators ++
    [if truthy (oget gp0 "inheritProps") then asObj (oget gp0 "inheritProps")
     else []]).foldl assign []

/-- The destructured class context of one build invocation. -/
def buildCtx (cm : ClassMeta) (gp0 : Obj) : ClassCtx :=
  ⟨oget (buildClassDecorator cm gp0) "tag",
   oget (buildClassDecorator cm gp0) "props",
   oget (buildClassDecorator cm gp0) "item"⟩

/-- The initial loop state of one build invocation. -/
def buildSt0 (cm : ClassMeta) (gp0 : Obj) : BuildSt :=
  ⟨none, asObj (vget (oget (buildClassDecorator cm gp0) "item") "props"), []⟩

/-- The merged result props of one build invocation. -/
def buildGlobalProps2 (cm : ClassMeta) (gp0 : Obj) : Obj :=
  assign (assign (assign [] (asObj (oget (buildClassDecorator cm gp0) "props")))
    (oremove gp0 "inheritProps"))
    [("handlers",
      if truthy (oget (buildClassDecorator cm gp0) "handlers") then
        oget (buildClassDecorator cm gp0) "handlers"
      else .vObj [])]

theorem foldlM_cons_except {α β : Type} (f : β → α → Except RErr β)
    (a : α) (l : List α) (b : β) :
    (a :: l).foldlM f b = (f b a) >>= fun st => l.foldlM f st := rfl

theorem foldlM_append_except {α β : Type} (f : β → α → Except RErr β)
    (l1 l2 : List α) (b : β) :
    (l1 ++ l2).foldlM f b = (l1.foldlM f b) >>= fun st => l2.foldlM f st := by
  induction l1 generalizing b with
  | nil => rfl
  | cons a l1 ih =>
    rw [List.cons_append, foldlM_cons_except, foldlM_cons_except]
    cases h : f b a with
    | error e => rfl
    | ok st => exact ih st

theorem except_bind_ok {α β : Type} (a : α) (f : α → Except RErr β) :
    (Except.ok a >>= f) = f a := rfl

theorem except_bind_error {α β : Type} (e : RErr) (f : α → Except RErr β) :
    ((Except.error e : Except RErr α) >>= f) = .error e := rfl

theorem foldlM_error_except {α β : Type} (f : β → α → Except RErr β)
    (a : α) (l : List α) (b : β) (e : RErr) (h : f b a = .error e) :
    (a :: l).foldlM f b = .error e := by
  rw [foldlM_cons_except, h]
  rfl

/-- Unfolding of a successful-entry build: with the class registered and
class decorators present, the builder is the property fold followed by
assembly. -/
theorem toFieldDefinition_form (reg : Registry) (fuel : Nat) (model : Value)
    (gp0 : Obj) (gen : Bool) (cm : ClassMeta)
    (hreg : lookupClass reg (instClassName model) = some cm)
    (hcds : cm.classDecorators.isEmpty = false) :
    toFieldDefinition reg (fuel + 1) model gp0 gen =
      (cm.props.foldlM (buildStep reg fuel model (instClassName model)
          (buildCtx cm gp0) (oremove gp0 "inheritProps")) (buildSt0 cm gp0)) >>=
        fun st =>
          .ok (.mk (buildCtx cm gp0).tag
            (buildGlobalProps2 cm gp0)
            (some st.childProps)
            (st.children.map (fun cs => (sortChildren cs).filter
              (keepChild (oget (buildGlobalProps2 cm gp0) "operation"))))
            (if gen then some (generateUIModelID model) else none)) := by
  rw [toFieldDefinition, hreg]
  rw [if_neg (show ¬ ((Option.map (fun c => ClassMeta.classDecorators c)
    (some cm)).getD []).isEmpty = true by
      intro hc
      have h2 : cm.classDecorators.isEmpty = true := hc
      rw [h2] at hcds
      exact Bool.noConfusion hcds)]
  rfl

/-- `uiTypeOf` rejects a property with two or more placement entries with
the conflicting-placement `RenderingError`. -/
theorem uiTypeOf_conflict (cn : String) (pm : PropMeta)
    (h : 2 ≤ (pm.decs.filter (fun d => isPlacement d.1)).length) :
    uiTypeOf cn pm = .error (.renderingError conflictMsg) := by
  match hf : pm.decs.filter (fun d => isPlacement d.1) with
  | [] => rw [hf] at h; simp at h
  | [k] => rw [hf] at h; simp at h
  | a :: b :: rest => unfold uiTypeOf; rw [hf]

/-! ### Claim C5: conflicting placements -/

/-- C5: if some property carries two or more placement annotations among
`prop`, `element` and `child`, and the properties enumerated before it
process without error, then `build` raises the conflicting-placement
`RenderingError` (the message of the spec's `ConflictingPlacement`) and
returns no tree. -/
theorem C5_conflicting_placement (reg : Registry) (fuel : Nat) (model : Value)
    (gp0 : Obj) (gen : Bool) (cm : ClassMeta) (pre : List PropMeta)
    (pm : PropMeta) (post : List PropMeta) (st' : BuildSt)
    (hreg : lookupClass reg (instClassName model) = some cm)
    (hcds : cm.classDecorators.isEmpty = false)
    (hprops : cm.props = pre ++ pm :: post)
    (hconf : 2 ≤ (pm.decs.filter (fun d => isPlacement d.1)).length)
    (hpre : pre.foldlM (buildStep reg fuel model (instClassName model)
        (buildCtx cm gp0) (oremove gp0 "inheritProps")) (buildSt0 cm gp0) =
      .ok st') :
    toFieldDefinition reg (fuel + 1) model gp0 gen =
      .error (.renderingError conflictMsg) := by
  rw [toFieldDefinition_form reg fuel model gp0 gen cm hreg hcds, hprops,
    foldlM_append_except, hpre]
  have hstep : buildStep reg fuel model (instClassName model)
      (buildCtx cm gp0) (oremove gp0 "inheritProps") st' pm =
      .error (.renderingError conflictMsg) := by
    unfold buildStep processProp
    rw [uiTypeOf_conflict (instClassName model) pm hconf]
    rfl
  have : (pm :: post).foldlM (buildStep reg fuel model (instClassName model)
      (buildCtx cm gp0) (oremove gp0 "inheritProps")) st' =
      .error (.renderingError conflictMsg) :=
    foldlM_error_except _ _ _ _ _ hstep
  rw [show ((Except.ok st') >>= fun st => (pm :: post).foldlM (buildStep reg fuel
    model (instClassName model) (buildCtx cm gp0) (oremove gp0 "inheritProps")) st) =
    (pm :: post).foldlM (buildStep reg fuel model (instClassName model)
    (buildCtx cm gp0) (oremove gp0 "inheritProps")) st' from rfl, this]
  rfl

/-- Element metadata used by the conflict witness. -/
def conflictElemMeta : Value :=
  .vObj [("tag", .vStr "ngx-input"), ("serialize", .vBool false),
         ("props", .vObj [("name", .vStr "a")])]

/-- Property metadata decorated with both `@uiprop` and `@uielement`. -/
def conflictPM : PropMeta :=
  { name := "a",
    decs := [(.prop, .vObj [("name", .vStr "a")]),
             (.element, conflictElemMeta)],
    validations := some [⟨"type", [("name", .vStr "String")]⟩],
    isModelType := false }

/-- The class metadata of the conflict witness model. -/
def conflictCM : ClassMeta :=
  { classDecorators := [[("tag", .vStr "form-x")]], props := [conflictPM] }

/-- A registry whose single model has a property decorated with both
`@uiprop` and `@uielement`. -/
def conflictReg : Registry := [("ConflictModel", conflictCM)]

/-- C5 witness: a property carrying `prop` and `element` makes `build`
fail with the conflicting-placement error. -/
theorem C5_witness :
    toFieldDefinition conflictReg 1 (.vInst "ConflictModel" []) [] true =
      .error (.renderingError conflictMsg) :=
  C5_conflicting_placement conflictReg 0 (.vInst "ConflictModel" []) [] true
    conflictCM [] conflictPM [] (buildSt0 conflictCM [])
    rfl rfl rfl (by decide) rfl

/-! ### Claim C8: hidden without element -/

/-- C8: a property that carries a hidden modifier but no `element`
placement makes `build` raise an error — either the orphan-modifier
rejection of `uiTypeOf`, the conflicting-placement rejection, or the
dedicated `@uielement no found` check. -/
theorem C8_hidden_requires_element (reg : Registry) (fuel : Nat) (model : Value)
    (gp0 : Obj) (gen : Bool) (cm : ClassMeta) (pre : List PropMeta)
    (pm : PropMeta) (post : List PropMeta) (st' : BuildSt)
    (hreg : lookupClass reg (instClassName model) = some cm)
    (hcds : cm.classDecorators.isEmpty = false)
    (hprops : cm.props = pre ++ pm :: post)
    (hhid : truthy (lookupDec pm .hiddenDec) = true)
    (helem : pm.decs.find? (fun d => d.1 = .element) = none)
    (hpre : pre.foldlM (buildStep reg fuel model (instClassName model)
        (buildCtx cm gp0) (oremove gp0 "inheritProps")) (buildSt0 cm gp0) =
      .ok st') :
    ∃ e, toFieldDefinition reg (fuel + 1) model gp0 gen = .error e := by
  have hstep : ∃ e, buildStep reg fuel model (instClassName model)
      (buildCtx cm gp0) (oremove gp0 "inheritProps") st' pm = .error e := by
    unfold buildStep processProp
    cases hty : uiTypeOf (instClassName model) pm with
    | error e => exact ⟨e, rfl⟩
    | ok v =>
      cases htr : truthy v with
      | false =>
        refine ⟨.renderingError conflictMsg, ?_⟩
        simp only [except_bind_ok, htr]
        rfl
      | true =>
        refine ⟨.renderingError ("@uielement no found in \"" ++ pm.name ++
          "\". It is required to use hiddenOn decorator."), ?_⟩
        have he : lookupDec pm .element = .vUndef := by
          unfold lookupDec
          rw [helem]
        simp only [except_bind_ok, htr, hhid, he]
        rfl
  obtain ⟨e, he⟩ := hstep
  refine ⟨e, ?_⟩
  rw [toFieldDefinition_form reg fuel model gp0 gen cm hreg hcds, hprops,
    foldlM_append_except, hpre]
  have : (pm :: post).foldlM (buildStep reg fuel model (instClassName model)
      (buildCtx cm gp0) (oremove gp0 "inheritProps")) st' = .error e :=
    foldlM_error_except _ _ _ _ _ he
  rw [show ((Except.ok st') >>= fun st => (pm :: post).foldlM (buildStep reg fuel
    model (instClassName model) (buildCtx cm gp0) (oremove gp0 "inheritProps")) st) =
    (pm :: post).foldlM (buildStep reg fuel model (instClassName model)
    (buildCtx cm gp0) (oremove gp0 "inheritProps")) st' from rfl, this]
  rfl

/-- Property metadata with a hidden modifier but only a `prop` placement. -/
def orphanPM : PropMeta :=
  { name := "a",
    decs := [(.prop, .vObj [("name", .vStr "a")]),
             (.hiddenDec, .vOps ["read"])],
    validations := some [⟨"type", [("name", .vStr "String")]⟩],
    isModelType := false }

/-- The class metadata of the orphan-hidden witness model. -/
def orphanCM : ClassMeta :=
  { classDecorators := [[("tag", .vStr "form-x")]], props := [orphanPM] }

/-- A registry whose single model has a `prop`-placed property that also
carries a hidden modifier but no `element` placement. -/
def hiddenOrphanReg : Registry := [("OrphanModel", orphanCM)]

/-- C8 witness: a hidden modifier on a `prop`-placed property aborts the
build with an error. -/
theorem C8_witness :
    ∃ e, toFieldDefinition hiddenOrphanReg 1 (.vInst "OrphanModel" []) [] true =
      .error e :=
  C8_hidden_requires_element hiddenOrphanReg 0 (.vInst "OrphanModel" []) [] true
    orphanCM [] orphanPM [] (buildSt0 orphanCM [])
    rfl rfl rfl rfl rfl rfl

/-! ### Characterization of the element branch -/

/-- The total form of the validation loop — the loop of `applyValidationDecs`
never errors, because `toAttributeValue` is only invoked behind its own
guard. -/
def applyOk : List VDec → Obj → Obj
  | [], props => props
  | d :: rest, props =>
    if isValidatableByAttribute d.key then
      applyOk rest (oset props (translate d.key true)
        (if d.key = "required" then .vBool true else oget d.props d.key))
    else if isValidatableByType d.key then
      let props2 :=
        if d.key = "date" then
          oset props "format"
            (if truthy (oget d.props "format") then oget d.props "format"
             else .vStr HTML5DateFormat)
        else props
      applyOk rest (oset props2 "type" (.vStr d.key))
    else applyOk rest props

theorem applyValidationDecs_eq_applyOk (vds : List VDec) (p : Obj) :
    applyValidationDecs vds p = .ok (applyOk vds p) := by
  induction vds generalizing p with
  | nil => rfl
  | cons d rest ih =>
    by_cases ha : isValidatableByAttribute d.key
    · have hv : toAttributeValue d.key d.props =
          .ok (if d.key = "required" then .vBool true else oget d.props d.key) := by
        simp [toAttributeValue, ha]
      simp [applyValidationDecs, applyOk, ha, hv, ih, except_bind_ok]
    · by_cases ht : isValidatableByType d.key <;>
        simp [applyValidationDecs, applyOk, ha, ht, ih]

/-- The forward type mapping leaves every attribute key unchanged. -/
theorem translate_id_of_attr (s : String) (h : s ∈ attributeKeys) :
    translate s true = s := by
  fin_cases h <;> rfl

/-- The validation loop only ever writes translated attribute keys and the
`type`/`format` markers: any other key reads unchanged through it. -/
theorem applyOk_oget_preserved (vds : List VDec) (p : Obj) (k : String)
    (hk : isValidatableByAttribute k = false) (ht : k ≠ "type")
    (hf : k ≠ "format") : oget (applyOk vds p) k = oget p k := by
  induction vds generalizing p with
  | nil => rfl
  | cons d rest ih =>
    by_cases ha : isValidatableByAttribute d.key
    · have hid : translate d.key true = d.key := by
        have hm : d.key ∈ attributeKeys := by
          have h2 := ha
          unfold isValidatableByAttribute at h2
          exact List.mem_of_elem_eq_true h2
        exact translate_id_of_attr d.key hm
      have hne : d.key ≠ k := by
        intro he
        rw [he] at ha
        rw [ha] at hk
        cases hk
      simp only [applyOk, if_pos ha]
      rw [ih, hid, oget_oset_ne _ _ _ _ hne]
    · by_cases hty : isValidatableByType d.key
      · simp only [applyOk, if_neg ha, if_pos hty]
        rw [ih]
        by_cases hd : d.key = "date"
        · rw [if_pos hd]
          rw [oget_oset_ne _ _ _ _ (fun he => ht he.symm),
            oget_oset_ne _ _ _ _ (fun he => hf he.symm)]
        · rw [if_neg hd]
          rw [oget_oset_ne _ _ _ _ (fun he => ht he.symm)]
      · simp only [applyOk, if_neg ha, if_neg hty]
        exact ih p

theorem nodup_keys_applyOk (vds : List VDec) (p : Obj)
    (h : (keysOf p).Nodup) : (keysOf (applyOk vds p)).Nodup := by
  induction vds generalizing p with
  | nil => exact h
  | cons d rest ih =>
    by_cases ha : isValidatableByAttribute d.key
    · simp only [applyOk, if_pos ha]
      exact ih _ (nodup_keys_oset _ _ _ h)
    · by_cases hty : isValidatableByType d.key
      · simp only [applyOk, if_neg ha, if_pos hty]
        by_cases hd : d.key = "date"
        · rw [if_pos hd]
          exact ih _ (nodup_keys_oset _ _ _ (nodup_keys_oset _ _ _ h))
        · rw [if_neg hd]
          exact ih _ (nodup_keys_oset _ _ _ h)
      · simp only [applyOk, if_neg ha, if_neg hty]
        exact ih p h

/-- The merged props of an element node before validation processing. -/
def elemProps0 (cp gp : Obj) (dv : Value) : Obj :=
  assign (assign (assign (assign []
      (asObj (oget cp "props"))) (asObj (vget dv "props")))
      (if truthy (vget (vget dv "props") "name") then
        [("path", .vStr (getPath (oget gp "childOf")
            (jsString (vget (vget dv "props") "name")))),
         ("childOf", .vUndef)]
       else []))
      gp

/-- The tag resolution of an element node. -/
def elemTag (ctx : ClassCtx) (cp : Obj) (dv : Value) : Value :=
  if truthy (vget dv "tag") then vget dv "tag"
  else if truthy (oget cp "tag") then oget cp "tag"
  else if truthy ctx.tag then ctx.tag
  else .vStr ""

/-- The element props after the validation loop. -/
def elemP2 (cp gp : Obj) (dv : Value) (rest : List VDec) : Obj :=
  applyOk rest (elemProps0 cp gp dv)

/-- The element props after type inference from the base-type descriptor. -/
def elemP3 (cp gp : Obj) (dv : Value) (tyn : String) (rest : List VDec) : Obj :=
  if truthy (oget (elemP2 cp gp dv rest) "type") then elemP2 cp gp dv rest
  else oset (elemP2 cp gp dv rest) "type" (.vStr (translate (jsToLower tyn) true))

/-- The final element props, with the formatted current value attached. -/
def elemP4 (cp gp : Obj) (dv : Value) (tyn : String) (rest : List VDec)
    (value : Value) : Obj :=
  oset (elemP3 cp gp dv tyn rest) "value"
    (formatByType (oget (elemP3 cp gp dv tyn rest) "type") value
      (oget (elemP3 cp gp dv tyn rest) "format"))

/-- The element node emitted for one property. -/
def elemNode (ctx : ClassCtx) (cp gp : Obj) (dv : Value) (tyn : String)
    (rest : List VDec) (value : Value) : FieldDef :=
  .mk (elemTag ctx cp dv) (elemP4 cp gp dv tyn rest value) none none none

/-- The `element` arm of `processDec` appends exactly the characterized
element node when the property's validation list starts with a base-type
descriptor carrying a string `name`. -/
theorem processDec_element_eq (recurse : Value → Obj → Except RErr FieldDef)
    (reg : Registry) (model : Value) (ctx : ClassCtx) (pm : PropMeta)
    (gp : Obj) (st : BuildSt) (dv : Value) (td : VDec) (rest : List VDec)
    (tyn : String)
    (hv : pm.validations = some (td :: rest))
    (hn : oget td.props "name" = .vStr tyn) :
    processDec recurse reg model ctx pm gp st .element dv =
      .ok { st with children := some ((st.children.getD []) ++
        [elemNode ctx st.childProps gp dv tyn rest (vget model pm.name)]) } := by
  simp only [processDec, if_true, hv, List.tail_cons, List.head?_cons, hn,
    applyValidationDecs_eq_applyOk, except_bind_ok, elemNode, elemTag, elemP4,
    elemP3, elemP2, elemProps0]
  split <;> split <;>
    first
      | rfl
      | (next h => rw [if_neg h])
      | (next h => rw [if_pos (Decidable.of_not_not h)])

/-! ### Characterization of the hidden / order modifier branches -/

theorem processDec_hidden_eq (recurse : Value → Obj → Except RErr FieldDef)
    (reg : Registry) (model : Value) (ctx : ClassCtx) (pm : PropMeta)
    (gp : Obj) (st : BuildSt) (dv : Value) :
    processDec recurse reg model ctx pm gp st .hiddenDec dv =
      .ok { st with children := some (updateFirst
        (fun c => oget c.props "name" == Value.vStr pm.name)
        (fun c => c.withProps (assign (assign [] c.props) [("hidden", dv)]))
        (st.children.getD [])) } := by
  simp [processDec, decKeyStr]

theorem processDec_order_eq (recurse : Value → Obj → Except RErr FieldDef)
    (reg : Registry) (model : Value) (ctx : ClassCtx) (pm : PropMeta)
    (gp : Obj) (st : BuildSt) (dv : Value) :
    processDec recurse reg model ctx pm gp st .orderDec dv =
      .ok { st with children := some (updateFirst
        (fun c => oget c.props "name" == Value.vStr pm.name)
        (fun c => c.withProps (assign (assign [] c.props) [("order", dv)]))
        (st.children.getD [])) } := by
  simp [processDec, decKeyStr]

theorem updateFirst_no_match (p : FieldDef → Bool) (f : FieldDef → FieldDef)
    (cs : List FieldDef) (h : ∀ c ∈ cs, p c = false) :
    updateFirst p f cs = cs := by
  induction cs with
  | nil => rfl
  | cons c cs ih =>
    rw [updateFirst, if_neg (by rw [h c (List.mem_cons_self c cs)]; simp)]
    rw [ih (fun c2 hc2 => h c2 (List.mem_cons_of_mem c hc2))]

theorem updateFirst_append_last (p : FieldDef → Bool) (f : FieldDef → FieldDef)
    (cs : List FieldDef) (node : FieldDef)
    (h : ∀ c ∈ cs, p c = false) (hn : p node = true) :
    updateFirst p f (cs ++ [node]) = cs ++ [f node] := by
  induction cs with
  | nil => simp [updateFirst, hn]
  | cons c cs ih =>
    rw [List.cons_append, updateFirst,
      if_neg (by rw [h c (List.mem_cons_self c cs)]; simp),
      ih (fun c2 hc2 => h c2 (List.mem_cons_of_mem c hc2)), List.cons_append]

/-! ### Element-spec scenarios -/

/-- An element-placed property as authored through `@uielement` (with
optional `hideOn` and `uiorder` modifiers): the name, the element tag,
the extra static props, the hidden-operations set, the explicit order,
the base-type name of the first validation fragment, and the remaining
validation fragments. -/
structure ElemSpec where
  name : String
  tagE : Value
  sprops : Obj
  hideSet : Option (List String)
  ord : Option Int
  tyName : String
  vrest : List VDec

/-- The `@uielement` metadata for a spec: the decorator merges the static
props with `{ name: propertyKey }`. -/
def mkElemMeta (e : ElemSpec) : Value :=
  .vObj [("tag", e.tagE), ("serialize", .vBool false),
         ("props", .vObj (assign (assign [] e.sprops) [("name", .vStr e.name)]))]

/-- The decoration entries attached to a spec'd property. -/
def mkElemDecs (e : ElemSpec) : List (DecKey × Value) :=
  [(.element, mkElemMeta e)] ++
    (match e.hideSet with
     | some S => [(.hiddenDec, .vOps S)]
     | none => []) ++
    (match e.ord with
     | some n => [(.orderDec, .vNum n)]
     | none => [])

/-- The full property metadata of a spec'd property. -/
def mkElemPM (e : ElemSpec) : PropMeta :=
  { name := e.name, decs := mkElemDecs e,
    validations := some (⟨"type", [("name", .vStr e.tyName)]⟩ :: e.vrest),
    isModelType := false }

theorem mkElemDecs_filter (e : ElemSpec) :
    (mkElemDecs e).filter (fun d => isPlacement d.1) =
      [(.element, mkElemMeta e)] := by
  cases h1 : e.hideSet <;> cases h2 : e.ord <;>
    simp [mkElemDecs, h1, h2, isPlacement, List.filter]

theorem mkElemDecs_placementFirst (e : ElemSpec) :
    placementFirst (mkElemDecs e) = mkElemDecs e := by
  cases h1 : e.hideSet <;> cases h2 : e.ord <;>
    simp [mkElemDecs, h1, h2, placementFirst, List.filter]

theorem mkElemPM_uiTypeOf (cn : String) (e : ElemSpec) :
    uiTypeOf cn (mkElemPM e) = .ok (mkElemMeta e) := by
  unfold uiTypeOf
  rw [show (mkElemPM e).decs = mkElemDecs e from rfl, mkElemDecs_filter]

theorem mkElemPM_lookup_element (e : ElemSpec) :
    lookupDec (mkElemPM e) .element = mkElemMeta e := by
  unfold lookupDec
  cases h1 : e.hideSet <;> cases h2 : e.ord <;>
    simp [mkElemPM, mkElemDecs, h1, h2]

theorem mkElemPM_lookup_hidden (e : ElemSpec) :
    lookupDec (mkElemPM e) .hiddenDec =
      (match e.hideSet with
       | some S => .vOps S
       | none => .vUndef) := by
  unfold lookupDec
  cases h1 : e.hideSet <;> cases h2 : e.ord <;>
    simp [mkElemPM, mkElemDecs, h1, h2]

/-! ### Props facts about the emitted element node -/

theorem oget_assign_nil_of_nodup (X : Obj) (k : String)
    (h : (keysOf X).Nodup) : oget (assign [] X) k = oget X k := by
  cases hh : hasKey X k with
  | true =>
    rw [oget_assign, olook_eq_of_nodup X k h hh]
    rfl
  | false =>
    rw [oget_assign_of_not_hasKey _ _ _ hh, oget_of_not_hasKey _ _ hh]
    rfl

/-- The props object the `@uielement` decorator stores for a spec. -/
def uppOf (e : ElemSpec) : Obj :=
  assign (assign [] e.sprops) [("name", .vStr e.name)]

theorem mkElemMeta_props (e : ElemSpec) :
    vget (mkElemMeta e) "props" = .vObj (uppOf e) := rfl

theorem uppOf_nodup (e : ElemSpec) : (keysOf (uppOf e)).Nodup :=
  nodup_keys_assign _ _ (nodup_keys_assign _ _ List.nodup_nil)

theorem uppOf_name (e : ElemSpec) : oget (uppOf e) "name" = .vStr e.name := by
  unfold uppOf
  rw [assign_cons, assign_nil, oget_oset_self]

theorem uppOf_hasKey_name (e : ElemSpec) : hasKey (uppOf e) "name" = true := by
  unfold uppOf
  rw [assign_cons, assign_nil, hasKey_oset]
  simp

theorem uppOf_oget_ne (e : ElemSpec) (k : String) (h1 : k ≠ "name")
    (h2 : hasKey e.sprops k = false) : oget (uppOf e) k = .vUndef := by
  unfold uppOf
  rw [assign_cons, assign_nil, oget_oset_ne _ _ _ _ (fun he => h1 he.symm),
    oget_assign_of_not_hasKey _ _ _ h2]
  rfl

theorem elemProps0_mk_oget_name (cp gp : Obj) (e : ElemSpec)
    (hgp : hasKey gp "name" = false) (hne : e.name ≠ "") :
    oget (elemProps0 cp gp (mkElemMeta e)) "name" = .vStr e.name := by
  unfold elemProps0
  rw [oget_assign_of_not_hasKey _ _ _ hgp, mkElemMeta_props]
  rw [show asObj (Value.vObj (uppOf e)) = uppOf e from rfl]
  rw [show vget (Value.vObj (uppOf e)) "name" = oget (uppOf e) "name" from rfl]
  rw [uppOf_name]
  rw [if_pos (show truthy (Value.vStr e.name) = true by simp [truthy, hne])]
  rw [oget_assign_of_not_hasKey _ _ _ (by rfl), oget_assign,
    olook_eq_of_nodup (uppOf e) "name" (uppOf_nodup e) (uppOf_hasKey_name e),
    uppOf_name]
  rfl

theorem elemProps0_mk_oget_undef (cp gp : Obj) (e : ElemSpec) (k : String)
    (hk1 : k ≠ "name") (hk2 : k ≠ "path") (hk3 : k ≠ "childOf")
    (hgp : hasKey gp k = false) (hsp : hasKey e.sprops k = false)
    (hcp : hasKey (asObj (oget cp "props")) k = false) :
    oget (elemProps0 cp gp (mkElemMeta e)) k = .vUndef := by
  unfold elemProps0
  rw [oget_assign_of_not_hasKey _ _ _ hgp, mkElemMeta_props]
  rw [show asObj (Value.vObj (uppOf e)) = uppOf e from rfl]
  have hn : ¬ ("name" = k) := fun he => hk1 (Eq.symm he)
  have hp : ¬ ("path" = k) := fun he => hk2 (Eq.symm he)
  have hc : ¬ ("childOf" = k) := fun he => hk3 (Eq.symm he)
  have hupp : hasKey (uppOf e) k = false := by
    unfold uppOf
    rw [assign_cons, assign_nil, hasKey_oset, hasKey_assign, hasKey_nil]
    simp [hsp, hn]
  have hpath : hasKey (if truthy (vget (Value.vObj (uppOf e)) "name") = true then
      [("path", Value.vStr (getPath (oget gp "childOf")
        (jsString (vget (Value.vObj (uppOf e)) "name")))),
       ("childOf", Value.vUndef)] else []) k = false := by
    split
    · rw [hasKey_cons, hasKey_cons, hasKey_nil]
      simp [hp, hc]
    · rfl
  rw [oget_assign_of_not_hasKey _ _ _ hpath,
    oget_assign_of_not_hasKey _ _ _ hupp,
    oget_assign_of_not_hasKey _ _ _ hcp]
  rfl

theorem elemProps0_nodup (cp gp : Obj) (dv : Value) :
    (keysOf (elemProps0 cp gp dv)).Nodup := by
  unfold elemProps0
  exact nodup_keys_assign _ _ (nodup_keys_assign _ _ (nodup_keys_assign _ _
    (nodup_keys_assign _ _ List.nodup_nil)))

theorem elemP4_nodup (cp gp : Obj) (dv : Value) (tyn : String)
    (rest : List VDec) (value : Value) :
    (keysOf (elemP4 cp gp dv tyn rest value)).Nodup := by
  unfold elemP4 elemP3 elemP2
  split
  · exact nodup_keys_oset _ _ _ (nodup_keys_applyOk _ _ (elemProps0_nodup cp gp dv))
  · exact nodup_keys_oset _ _ _ (nodup_keys_oset _ _ _
      (nodup_keys_applyOk _ _ (elemProps0_nodup cp gp dv)))

theorem elemNode_mk_name (ctx : ClassCtx) (cp gp : Obj) (e : ElemSpec)
    (value : Value) (hgp : hasKey gp "name" = false) (hne : e.name ≠ "") :
    oget (elemNode ctx cp gp (mkElemMeta e) e.tyName e.vrest value).props
      "name" = .vStr e.name := by
  show oget (elemP4 cp gp (mkElemMeta e) e.tyName e.vrest value) "name" = _
  unfold elemP4
  rw [oget_oset_ne _ _ _ _ (by decide : ("value" : String) ≠ "name")]
  unfold elemP3
  split
  · unfold elemP2
    rw [applyOk_oget_preserved _ _ _ (by decide) (by decide) (by decide)]
    exact elemProps0_mk_oget_name cp gp e hgp hne
  · rw [oget_oset_ne _ _ _ _ (by decide : ("type" : String) ≠ "name")]
    unfold elemP2
    rw [applyOk_oget_preserved _ _ _ (by decide) (by decide) (by decide)]
    exact elemProps0_mk_oget_name cp gp e hgp hne

theorem elemNode_mk_hidden_undef (ctx : ClassCtx) (cp gp : Obj) (e : ElemSpec)
    (value : Value) (hgp : hasKey gp "hidden" = false)
    (hsp : hasKey e.sprops "hidden" = false)
    (hcp : hasKey (asObj (oget cp "props")) "hidden" = false) :
    oget (elemNode ctx cp gp (mkElemMeta e) e.tyName e.vrest value).props
      "hidden" = .vUndef := by
  show oget (elemP4 cp gp (mkElemMeta e) e.tyName e.vrest value) "hidden" = _
  unfold elemP4
  rw [oget_oset_ne _ _ _ _ (by decide : ("value" : String) ≠ "hidden")]
  unfold elemP3
  split
  · unfold elemP2
    rw [applyOk_oget_preserved _ _ _ (by decide) (by decide) (by decide)]
    exact elemProps0_mk_oget_undef cp gp e "hidden" (by decide) (by decide)
      (by decide) hgp hsp hcp
  · rw [oget_oset_ne _ _ _ _ (by decide : ("type" : String) ≠ "hidden")]
    unfold elemP2
    rw [applyOk_oget_preserved _ _ _ (by decide) (by decide) (by decide)]
    exact elemProps0_mk_oget_undef cp gp e "hidden" (by decide) (by decide)
      (by decide) hgp hsp hcp

/-- A node's props after an in-place modifier merge. -/
theorem withProps_props (c : FieldDef) (p : Obj) : (c.withProps p).props = p := by
  cases c
  rfl

theorem modded_nodup (p : Obj) (k : String) (v : Value) :
    (keysOf (assign (assign [] p) [(k, v)])).Nodup :=
  nodup_keys_assign _ _ (nodup_keys_assign _ _ List.nodup_nil)

theorem modded_oget_ne (p : Obj) (k k2 : String) (v : Value)
    (hk : k ≠ k2) (hnodup : (keysOf p).Nodup) :
    oget (assign (assign [] p) [(k, v)]) k2 = oget p k2 := by
  rw [assign_cons, assign_nil, oget_oset_ne _ _ _ _ hk,
    oget_assign_nil_of_nodup _ _ hnodup]

theorem modded_oget_self (p : Obj) (k : String) (v : Value) :
    oget (assign (assign [] p) [(k, v)]) k = v := by
  rw [assign_cons, assign_nil, oget_oset_self]

/-- The node emitted for a spec'd property after its hidden and order
modifiers have been merged into it. -/
def specNode (ctx : ClassCtx) (cp gp : Obj) (e : ElemSpec) (value : Value) :
    FieldDef :=
  let base := elemNode ctx cp gp (mkElemMeta e) e.tyName e.vrest value
  let afterHide :=
    match e.hideSet with
    | some S => base.withProps (assign (assign [] base.props) [("hidden", .vOps S)])
    | none => base
  match e.ord with
  | some n =>
    afterHide.withProps (assign (assign [] afterHide.props) [("order", .vNum n)])
  | none => afterHide

theorem specNode_nodup (ctx : ClassCtx) (cp gp : Obj) (e : ElemSpec)
    (value : Value) :
    (keysOf (specNode ctx cp gp e value).props).Nodup := by
  unfold specNode
  cases e.hideSet <;> cases e.ord <;>
    simp only [withProps_props] <;>
    first
      | exact elemP4_nodup cp gp (mkElemMeta e) e.tyName e.vrest value
      | exact modded_nodup _ _ _

theorem specNode_name (ctx : ClassCtx) (cp gp : Obj) (e : ElemSpec)
    (value : Value) (hgp : hasKey gp "name" = false) (hne : e.name ≠ "") :
    oget (specNode ctx cp gp e value).props "name" = .vStr e.name := by
  have hbase := elemNode_mk_name ctx cp gp e value hgp hne
  have hbnodup : (keysOf (elemNode ctx cp gp (mkElemMeta e) e.tyName
      e.vrest value).props).Nodup :=
    elemP4_nodup cp gp (mkElemMeta e) e.tyName e.vrest value
  unfold specNode
  cases e.hideSet <;> cases e.ord <;> simp only [withProps_props]
  · exact hbase
  · rw [modded_oget_ne _ _ _ _ (by decide) hbnodup]
    exact hbase
  · rw [modded_oget_ne _ _ _ _ (by decide) hbnodup]
    exact hbase
  · rw [modded_oget_ne _ _ _ _ (by decide) (modded_nodup _ _ _)]
    rw [modded_oget_ne _ _ _ _ (by decide) hbnodup]
    exact hbase

theorem specNode_hidden (ctx : ClassCtx) (cp gp : Obj) (e : ElemSpec)
    (value : Value) (S : List String) (hS : e.hideSet = some S) :
    oget (specNode ctx cp gp e value).props "hidden" = .vOps S := by
  have hbnodup : (keysOf (elemNode ctx cp gp (mkElemMeta e) e.tyName
      e.vrest value).props).Nodup :=
    elemP4_nodup cp gp (mkElemMeta e) e.tyName e.vrest value
  unfold specNode
  rw [hS]
  cases e.ord <;> simp only [withProps_props]
  · exact modded_oget_self _ _ _
  · rw [modded_oget_ne _ _ _ _ (by decide) (modded_nodup _ _ _)]
    exact modded_oget_self _ _ _

theorem specNode_hidden_undef (ctx : ClassCtx) (cp gp : Obj) (e : ElemSpec)
    (value : Value) (hS : e.hideSet = none)
    (hgp : hasKey gp "hidden" = false)
    (hsp : hasKey e.sprops "hidden" = false)
    (hcp : hasKey (asObj (oget cp "props")) "hidden" = false) :
    oget (specNode ctx cp gp e value).props "hidden" = .vUndef := by
  have hbase := elemNode_mk_hidden_undef ctx cp gp e value hgp hsp hcp
  have hbnodup : (keysOf (elemNode ctx cp gp (mkElemMeta e) e.tyName
      e.vrest value).props).Nodup :=
    elemP4_nodup cp gp (mkElemMeta e) e.tyName e.vrest value
  unfold specNode
  rw [hS]
  cases e.ord <;> simp only [withProps_props]
  · exact hbase
  · rw [modded_oget_ne _ _ _ _ (by decide) hbnodup]
    exact hbase

/-- Processing one spec'd property appends exactly its `specNode` to the
accumulated children and leaves the rest of the state unchanged. -/
theorem processProp_spec (recurse : Value → Obj → Except RErr FieldDef)
    (reg : Registry) (model : Value) (cn : String) (ctx : ClassCtx)
    (gp : Obj) (st : BuildSt) (e : ElemSpec)
    (hgpname : hasKey gp "name" = false) (hne : e.name ≠ "")
    (hfresh : ∀ c ∈ st.children.getD [],
      oget c.props "name" ≠ Value.vStr e.name) :
    processProp recurse reg model cn ctx gp st (mkElemPM e) =
      .ok { st with children := some ((st.children.getD []) ++
        [specNode ctx st.childProps gp e (vget model e.name)]) } := by
  have hpredf : ∀ c ∈ st.children.getD [],
      (oget c.props "name" == Value.vStr e.name) = false := fun c hc =>
    beq_eq_false_iff_ne.mpr (hfresh c hc)
  have hbase := elemNode_mk_name ctx st.childProps gp e (vget model e.name)
    hgpname hne
  have hpredb : (oget (elemNode ctx st.childProps gp (mkElemMeta e) e.tyName
      e.vrest (vget model e.name)).props "name" == Value.vStr e.name) = true := by
    rw [hbase]
    exact beq_self_eq_true _
  have hbnodup : (keysOf (elemNode ctx st.childProps gp (mkElemMeta e) e.tyName
      e.vrest (vget model e.name)).props).Nodup :=
    elemP4_nodup st.childProps gp (mkElemMeta e) e.tyName e.vrest
      (vget model e.name)
  have helem := processDec_element_eq recurse reg model ctx (mkElemPM e) gp st
    (mkElemMeta e) ⟨"type", [("name", .vStr e.tyName)]⟩ e.vrest e.tyName rfl rfl
  unfold processProp
  rw [mkElemPM_uiTypeOf]
  simp only [except_bind_ok]
  rw [if_pos (show truthy (mkElemMeta e) = true from rfl)]
  rw [mkElemPM_lookup_hidden, mkElemPM_lookup_element]
  rw [show placementFirst (mkElemPM e).decs = mkElemDecs e from
    mkElemDecs_placementFirst e]
  cases hh : e.hideSet with
  | none =>
    rw [if_neg (by simp [truthy])]
    cases ho : e.ord with
    | none =>
      rw [show mkElemDecs e = [(.element, mkElemMeta e)] from by
        simp [mkElemDecs, hh, ho]]
      rw [foldlM_cons_except, helem]
      simp only [except_bind_ok]
      rw [show specNode ctx st.childProps gp e (vget model e.name) =
        elemNode ctx st.childProps gp (mkElemMeta e) e.tyName e.vrest
          (vget model e.name) from by simp [specNode, hh, ho]]
      rfl
    | some n =>
      rw [show mkElemDecs e = [(.element, mkElemMeta e),
        (.orderDec, .vNum n)] from by simp [mkElemDecs, hh, ho]]
      rw [foldlM_cons_except, helem]
      simp only [except_bind_ok, show (mkElemPM e).name = e.name from rfl]
      rw [foldlM_cons_except, processDec_order_eq]
      simp only [show (mkElemPM e).name = e.name from rfl]
      simp only [except_bind_ok]
      rw [show ({ st with children := some ((st.children.getD []) ++
          [elemNode ctx st.childProps gp (mkElemMeta e) e.tyName e.vrest
            (vget model e.name)]) } : BuildSt).children.getD [] =
        (st.children.getD []) ++ [elemNode ctx st.childProps gp (mkElemMeta e)
          e.tyName e.vrest (vget model e.name)] from rfl]
      rw [updateFirst_append_last _ _ _ _ hpredf hpredb]
      rw [show specNode ctx st.childProps gp e (vget model e.name) =
        (elemNode ctx st.childProps gp (mkElemMeta e) e.tyName e.vrest
          (vget model e.name)).withProps (assign (assign []
            (elemNode ctx st.childProps gp (mkElemMeta e) e.tyName e.vrest
              (vget model e.name)).props) [("order", .vNum n)]) from by
        simp [specNode, hh, ho]]
      rfl
  | some S =>
    rw [if_neg (by simp [truthy, mkElemMeta])]
    cases ho : e.ord with
    | none =>
      rw [show mkElemDecs e = [(.element, mkElemMeta e),
        (.hiddenDec, .vOps S)] from by simp [mkElemDecs, hh, ho]]
      rw [foldlM_cons_except, helem]
      simp only [except_bind_ok, show (mkElemPM e).name = e.name from rfl]
      rw [foldlM_cons_except, processDec_hidden_eq]
      simp only [show (mkElemPM e).name = e.name from rfl]
      simp only [except_bind_ok]
      rw [show ({ st with children := some ((st.children.getD []) ++
          [elemNode ctx st.childProps gp (mkElemMeta e) e.tyName e.vrest
            (vget model e.name)]) } : BuildSt).children.getD [] =
        (st.children.getD []) ++ [elemNode ctx st.childProps gp (mkElemMeta e)
          e.tyName e.vrest (vget model e.name)] from rfl]
      rw [updateFirst_append_last _ _ _ _ hpredf hpredb]
      rw [show specNode ctx st.childProps gp e (vget model e.name) =
        (elemNode ctx st.childProps gp (mkElemMeta e) e.tyName e.vrest
          (vget model e.name)).withProps (assign (assign []
            (elemNode ctx st.childProps gp (mkElemMeta e) e.tyName e.vrest
              (vget model e.name)).props) [("hidden", .vOps S)]) from by
        simp [specNode, hh, ho]]
      rfl
    | some n =>
      rw [show mkElemDecs e = [(.element, mkElemMeta e),
        (.hiddenDec, .vOps S), (.orderDec, .vNum n)] from by
        simp [mkElemDecs, hh, ho]]
      rw [foldlM_cons_except, helem]
      simp only [except_bind_ok, show (mkElemPM e).name = e.name from rfl]
      rw [foldlM_cons_except, processDec_hidden_eq]
      simp only [show (mkElemPM e).name = e.name from rfl]
      simp only [except_bind_ok]
      rw [show ({ st with children := some ((st.children.getD []) ++
          [elemNode ctx st.childProps gp (mkElemMeta e) e.tyName e.vrest
            (vget model e.name)]) } : BuildSt).children.getD [] =
        (st.children.getD []) ++ [elemNode ctx st.childProps gp (mkElemMeta e)
          e.tyName e.vrest (vget model e.name)] from rfl]
      rw [updateFirst_append_last _ _ _ _ hpredf hpredb]
      rw [foldlM_cons_except, processDec_order_eq]
      simp only [except_bind_ok, show (mkElemPM e).name = e.name from rfl]
      have hname2 : oget ((elemNode ctx st.childProps gp (mkElemMeta e)
          e.tyName e.vrest (vget model e.name)).withProps (assign (assign []
            (elemNode ctx st.childProps gp (mkElemMeta e) e.tyName e.vrest
              (vget model e.name)).props)
            [("hidden", .vOps S)])).props "name" = .vStr e.name := by
        rw [withProps_props, modded_oget_ne _ _ _ _ (by decide) hbnodup]
        exact hbase
      rw [show ({ st with children := some ((st.children.getD []) ++
          [(elemNode ctx st.childProps gp (mkElemMeta e) e.tyName e.vrest
            (vget model e.name)).withProps (assign (assign []
              (elemNode ctx st.childProps gp (mkElemMeta e) e.tyName e.vrest
                (vget model e.name)).props) [("hidden", .vOps S)])]) } :
          BuildSt).children.getD [] =
        (st.children.getD []) ++ [(elemNode ctx st.childProps gp (mkElemMeta e)
          e.tyName e.vrest (vget model e.name)).withProps (assign (assign []
            (elemNode ctx st.childProps gp (mkElemMeta e) e.tyName e.vrest
              (vget model e.name)).props) [("hidden", .vOps S)])] from rfl]
      rw [updateFirst_append_last _ _ _ _ hpredf (by
        rw [hname2]
        exact beq_self_eq_true _)]
      rw [show specNode ctx st.childProps gp e (vget model e.name) =
        ((elemNode ctx st.childProps gp (mkElemMeta e) e.tyName e.vrest
          (vget model e.name)).withProps (assign (assign []
            (elemNode ctx st.childProps gp (mkElemMeta e) e.tyName e.vrest
              (vget model e.name)).props) [("hidden", .vOps S)])).withProps
          (assign (assign [] ((elemNode ctx st.childProps gp (mkElemMeta e)
            e.tyName e.vrest (vget model e.name)).withProps (assign (assign []
              (elemNode ctx st.childProps gp (mkElemMeta e) e.tyName e.vrest
                (vget model e.name)).props)
              [("hidden", .vOps S)])).props) [("order", .vNum n)]) from by
        simp [specNode, hh, ho]]
      rfl

/-- The element nodes emitted for a list of spec'd properties. -/
def specNodesFrom (ctx : ClassCtx) (cp gp : Obj) (model : Value)
    (es : List ElemSpec) : List FieldDef :=
  es.map (fun e => specNode ctx cp gp e (vget model e.name))

/-- The visibility filter on a spec'd node with hidden-operations set `S`
keeps it exactly when the context operation is not in `S`. -/
theorem keepChild_specNode (ctx : ClassCtx) (cp gp : Obj) (e : ElemSpec)
    (value : Value) (S : List String) (o : String) (hS : e.hideSet = some S) :
    keepChild (.vStr o) (specNode ctx cp gp e value) = true ↔ o ∉ S := by
  have hho : hiddenOpsOf (oget (specNode ctx cp gp e value).props "hidden") = S := by
    rw [specNode_hidden ctx cp gp e value S hS]
    rfl
  simp only [keepChild]
  rw [hho]
  by_cases hmem : o ∈ S
  · have hne : S ≠ [] := List.ne_nil_of_mem hmem
    rw [if_neg (by simpa [List.isEmpty_iff] using hne)]
    have hc : opIncluded S (Value.vStr o) = true := by
      show S.elem o = true
      exact List.elem_eq_true_of_mem hmem
    rw [if_neg (by simp [hc])]
    simp [hmem]
  · by_cases he : S.isEmpty = true
    · rw [if_pos he]
      simp [hmem]
    · rw [if_neg he]
      have hc : opIncluded S (Value.vStr o) = false := by
        show S.elem o = false
        cases hel : S.elem o
        · rfl
        · exact absurd (List.mem_of_elem_eq_true hel) hmem
      rw [if_pos (by simp [hc])]
      simp [hmem]

/-- In a list of specs with pairwise distinct names, equal names identify
the spec. -/
theorem pairwise_name_inj {l : List ElemSpec} {a b : ElemSpec}
    (h : l.Pairwise (fun x y => x.name ≠ y.name)) (ha : a ∈ l) (hb : b ∈ l)
    (hn : a.name = b.name) : a = b := by
  induction l with
  | nil => cases ha
  | cons c t ih =>
    rcases List.mem_cons.mp ha with rfl | ha2
    · rcases List.mem_cons.mp hb with rfl | hb2
      · rfl
      · exact absurd hn (List.rel_of_pairwise_cons h hb2)
    · rcases List.mem_cons.mp hb with rfl | hb2
      · exact absurd hn.symm (List.rel_of_pairwise_cons h ha2)
      · exact ih h.of_cons ha2 hb2

/-- The property fold over a list of spec'd properties appends exactly
their `specNode`s, in enumeration order, to the accumulated children. -/
theorem foldl_buildStep_spec (reg : Registry) (fuel : Nat) (model : Value)
    (cn : String) (ctx : ClassCtx) (gp : Obj)
    (es : List ElemSpec) (st : BuildSt) (cs0 : List FieldDef)
    (hcs : st.children = some cs0)
    (hgpname : hasKey gp "name" = false)
    (hnames : ∀ e ∈ es, e.name ≠ "")
    (hfresh : ∀ e ∈ es, ∀ c ∈ cs0, oget c.props "name" ≠ Value.vStr e.name)
    (hdistinct : es.Pairwise (fun a b => a.name ≠ b.name)) :
    (es.map mkElemPM).foldlM (buildStep reg fuel model cn ctx gp) st =
      .ok { st with children := some (cs0 ++ specNodesFrom ctx st.childProps gp model es) } := by
  revert hcs hnames hfresh hdistinct
  induction es generalizing st cs0 with
  | nil =>
    intro hcs hnames hfresh hdistinct
    rw [show specNodesFrom ctx st.childProps gp model [] = [] from rfl,
      List.append_nil, ← hcs]
    rfl
  | cons e es ih =>
    intro hcs hnames hfresh hdistinct
    rw [List.map_cons, foldlM_cons_except]
    rw [show buildStep reg fuel model cn ctx gp st (mkElemPM e) =
      processProp (fun m g => toFieldDefinition reg fuel m g false) reg model
        cn ctx gp st (mkElemPM e) from rfl]
    rw [processProp_spec (fun m g => toFieldDefinition reg fuel m g false)
      reg model cn ctx gp st e hgpname (hnames e (List.mem_cons_self e es))
      (fun c hc => hfresh e (List.mem_cons_self e es) c
        (by rw [hcs] at hc; exact hc))]
    simp only [except_bind_ok]
    rw [show st.children.getD [] = cs0 from by rw [hcs]; rfl]
    rw [ih { st with children := some (cs0 ++
        [specNode ctx st.childProps gp e (vget model e.name)]) }
      (cs0 ++ [specNode ctx st.childProps gp e (vget model e.name)]) rfl
      (fun e2 he2 => hnames e2 (List.mem_cons_of_mem e he2))
      (fun e2 he2 c hc => by
        rcases List.mem_append.mp hc with h1 | h2
        · exact hfresh e2 (List.mem_cons_of_mem e he2) c h1
        · rw [List.eq_of_mem_singleton h2,
            specNode_name ctx st.childProps gp e (vget model e.name) hgpname
              (hnames e (List.mem_cons_self e es))]
          intro hcontra
          exact List.rel_of_pairwise_cons hdistinct he2 (Value.vStr.inj hcontra))
      hdistinct.of_cons]
    rw [List.append_assoc]
    rfl

/-- C4: operation-scoped visibility. For a model whose properties are
element-placed specs with pairwise distinct non-empty names, if property
`p` carries the hidden-operations set `S` and the merged result props
resolve the context operation to the string `o`, then any tree the build
returns contains a child node named after `p` iff `o ∉ S`: the node is
removed from the children, not merely flagged. -/
theorem C4_visibility (reg : Registry) (fuel : Nat) (model : Value)
    (gp0 : Obj) (gen : Bool) (cm : ClassMeta) (e0 : ElemSpec)
    (es : List ElemSpec) (p : ElemSpec) (S : List String) (o : String)
    (t : FieldDef)
    (hreg : lookupClass reg (instClassName model) = some cm)
    (hcds : cm.classDecorators.isEmpty = false)
    (hprops : cm.props = (e0 :: es).map mkElemPM)
    (hgpname : hasKey (oremove gp0 "inheritProps") "name" = false)
    (hnames : ∀ e ∈ e0 :: es, e.name ≠ "")
    (hdistinct : (e0 :: es).Pairwise (fun a b => a.name ≠ b.name))
    (hp : p ∈ e0 :: es) (hS : p.hideSet = some S)
    (hop : oget (buildGlobalProps2 cm gp0) "operation" = .vStr o)
    (ht : toFieldDefinition reg (fuel + 1) model gp0 gen = .ok t) :
    ((t.children.getD []).any
      (fun c => oget c.props "name" == Value.vStr p.name)) = true ↔ o ∉ S := by
  rw [toFieldDefinition_form reg fuel model gp0 gen cm hreg hcds, hprops] at ht
  rw [List.map_cons, foldlM_cons_except] at ht
  rw [show buildStep reg fuel model (instClassName model) (buildCtx cm gp0)
    (oremove gp0 "inheritProps") (buildSt0 cm gp0) (mkElemPM e0) =
    processProp (fun m g => toFieldDefinition reg fuel m g false) reg model
      (instClassName model) (buildCtx cm gp0) (oremove gp0 "inheritProps")
      (buildSt0 cm gp0) (mkElemPM e0) from rfl] at ht
  rw [processProp_spec (fun m g => toFieldDefinition reg fuel m g false)
    reg model (instClassName model) (buildCtx cm gp0)
    (oremove gp0 "inheritProps") (buildSt0 cm gp0) e0 hgpname
    (hnames e0 (List.mem_cons_self e0 es)) (fun c hc => nomatch hc)] at ht
  simp only [except_bind_ok] at ht
  rw [foldl_buildStep_spec reg fuel model (instClassName model)
    (buildCtx cm gp0) (oremove gp0 "inheritProps") es _
    [specNode (buildCtx cm gp0) (buildSt0 cm gp0).childProps
      (oremove gp0 "inheritProps") e0 (vget model e0.name)] rfl hgpname
    (fun e2 he2 => hnames e2 (List.mem_cons_of_mem e0 he2))
    (fun e2 he2 c hc => by
      rw [List.eq_of_mem_singleton hc,
        specNode_name (buildCtx cm gp0) (buildSt0 cm gp0).childProps
          (oremove gp0 "inheritProps") e0 (vget model e0.name) hgpname
          (hnames e0 (List.mem_cons_self e0 es))]
      intro hcontra
      exact List.rel_of_pairwise_cons hdistinct he2 (Value.vStr.inj hcontra))
    hdistinct.of_cons] at ht
  simp only [except_bind_ok] at ht
  have ht3 := Except.ok.inj ht
  have hch : t.children.getD [] =
      (sortChildren (specNodesFrom (buildCtx cm gp0)
        (buildSt0 cm gp0).childProps (oremove gp0 "inheritProps") model
        (e0 :: es))).filter (keepChild (Value.vStr o)) := by
    rw [← ht3, ← hop]
    rfl
  rw [hch]
  rw [List.any_eq_true]
  constructor
  · rintro ⟨c, hcmem, hcpred⟩
    have hc2 := List.mem_filter.mp hcmem
    have hc3 : c ∈ specNodesFrom (buildCtx cm gp0) (buildSt0 cm gp0).childProps
        (oremove gp0 "inheritProps") model (e0 :: es) :=
      (sortChildren_perm _).mem_iff.mp hc2.1
    obtain ⟨e2, he2, hce⟩ := List.mem_map.mp hc3
    have hname : e2.name = p.name := by
      have hceq : oget c.props "name" = Value.vStr p.name := eq_of_beq hcpred
      rw [← hce, specNode_name (buildCtx cm gp0) (buildSt0 cm gp0).childProps
        (oremove gp0 "inheritProps") e2 (vget model e2.name) hgpname
        (hnames e2 he2)] at hceq
      exact Value.vStr.inj hceq
    have hep : e2 = p := pairwise_name_inj hdistinct he2 hp hname
    have hkeep := hc2.2
    rw [← hce, hep] at hkeep
    exact (keepChild_specNode (buildCtx cm gp0) (buildSt0 cm gp0).childProps
      (oremove gp0 "inheritProps") p (vget model p.name) S o hS).mp hkeep
  · intro ho
    refine ⟨specNode (buildCtx cm gp0) (buildSt0 cm gp0).childProps
      (oremove gp0 "inheritProps") p (vget model p.name), ?_, ?_⟩
    · apply List.mem_filter.mpr
      refine ⟨(sortChildren_perm _).mem_iff.mpr
        (List.mem_map_of_mem _ hp), ?_⟩
      exact (keepChild_specNode (buildCtx cm gp0) (buildSt0 cm gp0).childProps
        (oremove gp0 "inheritProps") p (vget model p.name) S o hS).mpr ho
    · rw [specNode_name (buildCtx cm gp0) (buildSt0 cm gp0).childProps
        (oremove gp0 "inheritProps") p (vget model p.name) hgpname
        (hnames p hp)]
      exact beq_self_eq_true _

/-- When the fragments contain no type-implying key, the validation loop
preserves every non-attribute key, `type` and `format` included. -/
theorem applyOk_oget_preserved_noType (vds : List VDec) (p : Obj) (k : String)
    (hk : isValidatableByAttribute k = false)
    (hv : ∀ d ∈ vds, isValidatableByType d.key = false) :
    oget (applyOk vds p) k = oget p k := by
  revert hv
  induction vds generalizing p with
  | nil =>
    intro hv
    rfl
  | cons d rest ih =>
    intro hv
    by_cases ha : isValidatableByAttribute d.key
    · have hid : translate d.key true = d.key :=
        translate_id_of_attr d.key (by
          have h2 := ha
          unfold isValidatableByAttribute at h2
          exact List.mem_of_elem_eq_true h2)
      have hne : d.key ≠ k := by
        intro he
        rw [he] at ha
        rw [ha] at hk
        cases hk
      simp only [applyOk, if_pos ha]
      rw [ih _ (fun d2 hd2 => hv d2 (List.mem_cons_of_mem d hd2)), hid,
        oget_oset_ne _ _ _ _ hne]
    · by_cases hty : isValidatableByType d.key
      · rw [hv d (List.mem_cons_self d rest)] at hty
        cases hty
      · simp only [applyOk, if_neg ha, if_neg hty]
        exact ih p (fun d2 hd2 => hv d2 (List.mem_cons_of_mem d hd2))

theorem elemP2_mk_oget_undef_noType (cp gp : Obj) (e : ElemSpec) (k : String)
    (hattr : isValidatableByAttribute k = false)
    (hk1 : k ≠ "name") (hk2 : k ≠ "path") (hk3 : k ≠ "childOf")
    (hv : ∀ d ∈ e.vrest, isValidatableByType d.key = false)
    (hgp : hasKey gp k = false) (hsp : hasKey e.sprops k = false)
    (hcp : hasKey (asObj (oget cp "props")) k = false) :
    oget (elemP2 cp gp (mkElemMeta e) e.vrest) k = .vUndef := by
  unfold elemP2
  rw [applyOk_oget_preserved_noType _ _ _ hattr hv]
  exact elemProps0_mk_oget_undef cp gp e k hk1 hk2 hk3 hgp hsp hcp

/-- With base type `Date` and no type-implying fragment, type inference
resolves the element's `type` to the translated lower-cased base type,
`date`. -/
theorem elemP3_mk_type_date (cp gp : Obj) (e : ElemSpec)
    (hty : e.tyName = "Date")
    (hv : ∀ d ∈ e.vrest, isValidatableByType d.key = false)
    (hgp : hasKey gp "type" = false) (hsp : hasKey e.sprops "type" = false)
    (hcp : hasKey (asObj (oget cp "props")) "type" = false) :
    oget (elemP3 cp gp (mkElemMeta e) e.tyName e.vrest) "type" =
      .vStr "date" := by
  have h2 : oget (elemP2 cp gp (mkElemMeta e) e.vrest) "type" = .vUndef :=
    elemP2_mk_oget_undef_noType cp gp e "type" (by decide) (by decide)
      (by decide) (by decide) hv hgp hsp hcp
  unfold elemP3
  rw [if_neg (by rw [h2]; simp [truthy]), oget_oset_self, hty]
  decide

theorem elemNode_mk_type_date (ctx : ClassCtx) (cp gp : Obj) (e : ElemSpec)
    (value : Value) (hty : e.tyName = "Date")
    (hv : ∀ d ∈ e.vrest, isValidatableByType d.key = false)
    (hgp : hasKey gp "type" = false) (hsp : hasKey e.sprops "type" = false)
    (hcp : hasKey (asObj (oget cp "props")) "type" = false) :
    oget (elemNode ctx cp gp (mkElemMeta e) e.tyName e.vrest value).props
      "type" = .vStr "date" := by
  show oget (elemP4 cp gp (mkElemMeta e) e.tyName e.vrest value) "type" = _
  unfold elemP4
  rw [oget_oset_ne _ _ _ _ (by decide : ("value" : String) ≠ "type")]
  exact elemP3_mk_type_date cp gp e hty hv hgp hsp hcp

/-- With base type `Date`, no type-implying fragment and no declared
format, the element's current value is the date formatted with the fixed
default `HTML5DateFormat`. -/
theorem elemNode_mk_value_date (ctx : ClassCtx) (cp gp : Obj) (e : ElemSpec)
    (value : Value) (hty : e.tyName = "Date")
    (hv : ∀ d ∈ e.vrest, isValidatableByType d.key = false)
    (hgp : hasKey gp "type" = false) (hsp : hasKey e.sprops "type" = false)
    (hcp : hasKey (asObj (oget cp "props")) "type" = false)
    (hfgp : hasKey gp "format" = false)
    (hfsp : hasKey e.sprops "format" = false)
    (hfcp : hasKey (asObj (oget cp "props")) "format" = false) :
    oget (elemNode ctx cp gp (mkElemMeta e) e.tyName e.vrest value).props
      "value" = .vStr (formatDate (toJSDate value) HTML5DateFormat) := by
  have h2f : oget (elemP2 cp gp (mkElemMeta e) e.vrest) "format" = .vUndef :=
    elemP2_mk_oget_undef_noType cp gp e "format" (by decide) (by decide)
      (by decide) (by decide) hv hfgp hfsp hfcp
  have h3t := elemP3_mk_type_date cp gp e hty hv hgp hsp hcp
  have h3f : oget (elemP3 cp gp (mkElemMeta e) e.tyName e.vrest) "format" =
      .vUndef := by
    have h2 : oget (elemP2 cp gp (mkElemMeta e) e.vrest) "type" = .vUndef :=
      elemP2_mk_oget_undef_noType cp gp e "type" (by decide) (by decide)
        (by decide) (by decide) hv hgp hsp hcp
    unfold elemP3
    rw [if_neg (by rw [h2]; simp [truthy]),
      oget_oset_ne _ _ _ _ (by decide : ("type" : String) ≠ "format")]
    exact h2f
  show oget (elemP4 cp gp (mkElemMeta e) e.tyName e.vrest value) "value" = _
  unfold elemP4
  rw [oget_oset_self, h3t, h3f]
  unfold formatByType
  rw [if_pos rfl, if_neg (by simp [truthy])]

/-- With neither a `hideOn` nor an `uiorder` modifier the emitted node is
the bare element node. -/
theorem specNode_none_eq (ctx : ClassCtx) (cp gp : Obj) (e : ElemSpec)
    (value : Value) (h1 : e.hideSet = none) (h2 : e.ord = none) :
    specNode ctx cp gp e value =
      elemNode ctx cp gp (mkElemMeta e) e.tyName e.vrest value := by
  simp [specNode, h1, h2]

/-- A node whose `hidden` prop is `undefined` always survives the
visibility filter. -/
theorem keepChild_of_hidden_undef (op : Value) (c : FieldDef)
    (h : oget c.props "hidden" = .vUndef) : keepChild op c = true := by
  simp only [keepChild]
  rw [h]
  rfl

/-- A successful build on a model whose properties are spec'd elements
with pairwise distinct non-empty names has exactly the sorted and
visibility-filtered spec nodes as children. -/
theorem build_spec_children (reg : Registry) (fuel : Nat) (model : Value)
    (gp0 : Obj) (gen : Bool) (cm : ClassMeta) (e0 : ElemSpec)
    (es : List ElemSpec) (t : FieldDef)
    (hreg : lookupClass reg (instClassName model) = some cm)
    (hcds : cm.classDecorators.isEmpty = false)
    (hprops : cm.props = (e0 :: es).map mkElemPM)
    (hgpname : hasKey (oremove gp0 "inheritProps") "name" = false)
    (hnames : ∀ e ∈ e0 :: es, e.name ≠ "")
    (hdistinct : (e0 :: es).Pairwise (fun a b => a.name ≠ b.name))
    (ht : toFieldDefinition reg (fuel + 1) model gp0 gen = .ok t) :
    t.children.getD [] =
      (sortChildren (specNodesFrom (buildCtx cm gp0)
        (buildSt0 cm gp0).childProps (oremove gp0 "inheritProps") model
        (e0 :: es))).filter
        (keepChild (oget (buildGlobalProps2 cm gp0) "operation")) := by
  rw [toFieldDefinition_form reg fuel model gp0 gen cm hreg hcds, hprops] at ht
  rw [List.map_cons, foldlM_cons_except] at ht
  rw [show buildStep reg fuel model (instClassName model) (buildCtx cm gp0)
    (oremove gp0 "inheritProps") (buildSt0 cm gp0) (mkElemPM e0) =
    processProp (fun m g => toFieldDefinition reg fuel m g false) reg model
      (instClassName model) (buildCtx cm gp0) (oremove gp0 "inheritProps")
      (buildSt0 cm gp0) (mkElemPM e0) from rfl] at ht
  rw [processProp_spec (fun m g => toFieldDefinition reg fuel m g false)
    reg model (instClassName model) (buildCtx cm gp0)
    (oremove gp0 "inheritProps") (buildSt0 cm gp0) e0 hgpname
    (hnames e0 (List.mem_cons_self e0 es)) (fun c hc => nomatch hc)] at ht
  simp only [except_bind_ok] at ht
  rw [foldl_buildStep_spec reg fuel model (instClassName model)
    (buildCtx cm gp0) (oremove gp0 "inheritProps") es _
    [specNode (buildCtx cm gp0) (buildSt0 cm gp0).childProps
      (oremove gp0 "inheritProps") e0 (vget model e0.name)] rfl hgpname
    (fun e2 he2 => hnames e2 (List.mem_cons_of_mem e0 he2))
    (fun e2 he2 c hc => by
      rw [List.eq_of_mem_singleton hc,
        specNode_name (buildCtx cm gp0) (buildSt0 cm gp0).childProps
          (oremove gp0 "inheritProps") e0 (vget model e0.name) hgpname
          (hnames e0 (List.mem_cons_self e0 es))]
      intro hcontra
      exact List.rel_of_pairwise_cons hdistinct he2 (Value.vStr.inj hcontra))
    hdistinct.of_cons] at ht
  simp only [except_bind_ok] at ht
  have ht3 := Except.ok.inj ht
  rw [← ht3]
  rfl

/-- C6: date type inference. For a spec'd property with base type `Date`,
no type-implying validation fragment, no declared `type`/`format` anywhere
in its prop sources and no modifiers, any tree the build returns contains
a node named after it whose resolved `type` is `date` and whose `value` is
the model's date formatted with the fixed default format `yyyy-MM-dd`. -/
theorem C6_date_type_inference (reg : Registry) (fuel : Nat) (model : Value)
    (gp0 : Obj) (gen : Bool) (cm : ClassMeta) (e0 : ElemSpec)
    (es : List ElemSpec) (p : ElemSpec) (t : FieldDef)
    (hreg : lookupClass reg (instClassName model) = some cm)
    (hcds : cm.classDecorators.isEmpty = false)
    (hprops : cm.props = (e0 :: es).map mkElemPM)
    (hgpname : hasKey (oremove gp0 "inheritProps") "name" = false)
    (hnames : ∀ e ∈ e0 :: es, e.name ≠ "")
    (hdistinct : (e0 :: es).Pairwise (fun a b => a.name ≠ b.name))
    (hp : p ∈ e0 :: es)
    (hty : p.tyName = "Date")
    (hnoty : ∀ d ∈ p.vrest, isValidatableByType d.key = false)
    (hSnone : p.hideSet = none) (hordnone : p.ord = none)
    (htgp : hasKey (oremove gp0 "inheritProps") "type" = false)
    (htsp : hasKey p.sprops "type" = false)
    (htcp : hasKey (asObj (oget (buildSt0 cm gp0).childProps "props"))
      "type" = false)
    (hfgp : hasKey (oremove gp0 "inheritProps") "format" = false)
    (hfsp : hasKey p.sprops "format" = false)
    (hfcp : hasKey (asObj (oget (buildSt0 cm gp0).childProps "props"))
      "format" = false)
    (hhgp : hasKey (oremove gp0 "inheritProps") "hidden" = false)
    (hhsp : hasKey p.sprops "hidden" = false)
    (hhcp : hasKey (asObj (oget (buildSt0 cm gp0).childProps "props"))
      "hidden" = false)
    (ht : toFieldDefinition reg (fuel + 1) model gp0 gen = .ok t) :
    ∃ c, c ∈ t.children.getD [] ∧
      oget c.props "name" = .vStr p.name ∧
      oget c.props "type" = .vStr "date" ∧
      oget c.props "value" =
        .vStr (formatDate (toJSDate (vget model p.name)) HTML5DateFormat) := by
  rw [build_spec_children reg fuel model gp0 gen cm e0 es t hreg hcds hprops
    hgpname hnames hdistinct ht]
  refine ⟨specNode (buildCtx cm gp0) (buildSt0 cm gp0).childProps
    (oremove gp0 "inheritProps") p (vget model p.name), ?_, ?_, ?_, ?_⟩
  · apply List.mem_filter.mpr
    refine ⟨(sortChildren_perm _).mem_iff.mpr (List.mem_map_of_mem _ hp), ?_⟩
    exact keepChild_of_hidden_undef _ _
      (specNode_hidden_undef (buildCtx cm gp0) (buildSt0 cm gp0).childProps
        (oremove gp0 "inheritProps") p (vget model p.name) hSnone hhgp hhsp hhcp)
  · exact specNode_name (buildCtx cm gp0) (buildSt0 cm gp0).childProps
      (oremove gp0 "inheritProps") p (vget model p.name) hgpname (hnames p hp)
  · rw [specNode_none_eq _ _ _ _ _ hSnone hordnone]
    exact elemNode_mk_type_date (buildCtx cm gp0) (buildSt0 cm gp0).childProps
      (oremove gp0 "inheritProps") p (vget model p.name) hty hnoty htgp htsp htcp
  · rw [specNode_none_eq _ _ _ _ _ hSnone hordnone]
    exact elemNode_mk_value_date (buildCtx cm gp0) (buildSt0 cm gp0).childProps
      (oremove gp0 "inheritProps") p (vget model p.name) hty hnoty htgp htsp
      htcp hfgp hfsp hfcp

/-- A two-property model for exercising the visibility filter: `f1`
always visible, `f2` hidden on the `update` operation. -/
def c4E0 : ElemSpec := ⟨"f1", .vStr "ui-input", [], none, none, "String", []⟩

def c4P : ElemSpec := ⟨"f2", .vStr "ui-input", [], some ["update"], none, "String", []⟩

def c4Cm : ClassMeta := ⟨[[("tag", .vStr "ui-form")]], [c4E0, c4P].map mkElemPM⟩

def c4Reg : Registry := [("M", c4Cm)]

def c4Model : Value := .vInst "M" [("f1", .vStr "a"), ("f2", .vStr "b")]

def c4Gp0 : Obj := [("operation", .vStr "read")]

/-- The tree the builder returns on the C4 scenario. -/
def c4Tree : FieldDef :=
  (toFieldDefinition c4Reg 2 c4Model c4Gp0 true).toOption.getD
    (.mk .vUndef [] none none none)

/-- Witness for C4 at a concrete input: building with operation `read` a
model whose `f2` is hidden on `update` keeps the `f2` node. -/
theorem C4_witness :
    (toFieldDefinition c4Reg 2 c4Model c4Gp0 true = .ok c4Tree) ∧
    (((c4Tree.children.getD []).any
      (fun c => oget c.props "name" == Value.vStr c4P.name)) = true ↔
      "read" ∉ ["update"]) :=
  ⟨rfl, C4_visibility c4Reg 1 c4Model c4Gp0 true c4Cm c4E0 [c4P] c4P ["update"]
    "read" c4Tree rfl rfl rfl rfl
    (by
      intro e he
      rcases List.mem_cons.mp he with rfl | he2
      · decide
      rcases List.mem_cons.mp he2 with rfl | he3
      · decide
      cases he3)
    (by
      refine List.Pairwise.cons ?_ (List.Pairwise.cons ?_ List.Pairwise.nil)
      · intro b hb
        rcases List.mem_cons.mp hb with rfl | h2
        · decide
        cases h2
      · intro b hb
        cases hb)
    (List.mem_cons_of_mem c4E0 (List.mem_cons_self c4P []))
    rfl rfl rfl⟩

/-- A one-property model with a `Date`-typed element and no explicit
type or format. -/
def c6E0 : ElemSpec := ⟨"when", .vStr "ui-input", [], none, none, "Date", []⟩

def c6Cm : ClassMeta := ⟨[[("tag", .vStr "ui-form")]], [c6E0].map mkElemPM⟩

def c6Reg : Registry := [("MD", c6Cm)]

def c6Model : Value := .vInst "MD" [("when", .vDate 2021 3 9)]

def c6Gp0 : Obj := [("operation", .vStr "read")]

/-- The tree the builder returns on the C6 scenario. -/
def c6Tree : FieldDef :=
  (toFieldDefinition c6Reg 2 c6Model c6Gp0 true).toOption.getD
    (.mk .vUndef [] none none none)

/-- Witness for C6 at a concrete input: the `when` node resolves its type
to `date` and formats `2021-03-09` with the default format. -/
theorem C6_witness :
    (toFieldDefinition c6Reg 2 c6Model c6Gp0 true = .ok c6Tree) ∧
    (∃ c, c ∈ c6Tree.children.getD [] ∧
      oget c.props "name" = .vStr c6E0.name ∧
      oget c.props "type" = .vStr "date" ∧
      oget c.props "value" =
        .vStr (formatDate (toJSDate (vget c6Model c6E0.name)) HTML5DateFormat)) :=
  ⟨rfl, C6_date_type_inference c6Reg 1 c6Model c6Gp0 true c6Cm c6E0 [] c6E0
    c6Tree rfl rfl rfl rfl
    (by
      intro e he
      rcases List.mem_cons.mp he with rfl | h2
      · decide
      cases h2)
    (List.Pairwise.cons (fun b hb => nomatch hb) List.Pairwise.nil)
    (List.mem_cons_self c6E0 [])
    rfl (fun d hd => nomatch hd) rfl rfl
    rfl rfl rfl rfl rfl rfl rfl rfl rfl rfl⟩

/-- The `@uichild` metadata for a declared submodel class name. -/
def childDv (cn : String) : Value :=
  .vObj [("props", .vObj [("name", .vStr cn)])]

/-- The property metadata of a child-placed property. -/
def mkChildPM (pname cn : String) : PropMeta :=
  { name := pname, decs := [(.child, childDv cn)], validations := none,
    isModelType := true }

/-- The `child` arm on an undefined submodel: a placeholder instance of the
declared class is constructed and the recursion's result is appended. -/
theorem processDec_child_eq (recurse : Value → Obj → Except RErr FieldDef)
    (reg : Registry) (model : Value) (ctx : ClassCtx) (pname cna : String)
    (gp : Obj) (st : BuildSt) (cd : FieldDef) (cmA : ClassMeta)
    (hsub : vget model pname = .vUndef)
    (hlook : lookupClass reg cna = some cmA)
    (hrec : recurse (.vInst cna [])
      (assign gp [("model", .vInst cna []), ("inheritProps", childDv cna),
        ("childOf", .vStr (getPath (oget gp "childOf") pname))]) = .ok cd) :
    processDec recurse reg model ctx (mkChildPM pname cna) gp st .child
        (childDv cna) =
      .ok { st with children := some ((st.children.getD []) ++ [cd]) } := by
  have hipm : isPropertyModel (mkChildPM pname cna) model = true := by
    unfold isPropertyModel
    rw [show (mkChildPM pname cna).name = pname from rfl, hsub]
    rfl
  simp only [processDec]
  rw [if_neg (by simp [hipm])]
  rw [show (mkChildPM pname cna).name = pname from rfl, hsub]
  rw [show jsString (vget (vget (childDv cna) "props") "name") = cna from rfl]
  rw [hlook]
  rw [if_pos (show ¬ false = true by simp)]
  simp only [except_bind_ok]
  rw [if_neg (show ¬ truthy Value.vUndef = true by simp [truthy])]
  rw [hrec]
  rfl


/-- The `child` arm on a present submodel instance: the instance itself is
recursed into. -/
theorem processDec_child_real_eq (recurse : Value → Obj → Except RErr FieldDef)
    (reg : Registry) (model : Value) (ctx : ClassCtx) (pname cna : String)
    (aflds : Obj) (gp : Obj) (st : BuildSt) (cd : FieldDef)
    (hsub : vget model pname = .vInst cna aflds)
    (hrec : recurse (.vInst cna aflds)
      (assign gp [("model", .vUndef), ("inheritProps", childDv cna),
        ("childOf", .vStr (getPath (oget gp "childOf") pname))]) = .ok cd) :
    processDec recurse reg model ctx (mkChildPM pname cna) gp st .child
        (childDv cna) =
      .ok { st with children := some ((st.children.getD []) ++ [cd]) } := by
  have hipm : isPropertyModel (mkChildPM pname cna) model = true := by
    unfold isPropertyModel
    rw [show (mkChildPM pname cna).name = pname from rfl, hsub]
  simp only [processDec]
  rw [if_neg (by simp [hipm])]
  rw [show (mkChildPM pname cna).name = pname from rfl, hsub]
  rw [if_neg (show ¬ ¬ (true : Bool) = true by simp)]
  simp only [except_bind_ok]
  rw [if_pos (show truthy (Value.vInst cna aflds) = true from rfl)]
  rw [hrec]
  rfl

/-- The property loop body on a child-placed property reduces to the
single `child` decoration step. -/
theorem processProp_child_eq (recurse : Value → Obj → Except RErr FieldDef)
    (reg : Registry) (model : Value) (cn : String) (ctx : ClassCtx)
    (gp : Obj) (st : BuildSt) (pname cna : String) (cd : FieldDef)
    (hstep : processDec recurse reg model ctx (mkChildPM pname cna) gp st
        .child (childDv cna) =
      .ok { st with children := some ((st.children.getD []) ++ [cd]) }) :
    processProp recurse reg model cn ctx gp st (mkChildPM pname cna) =
      .ok { st with children := some ((st.children.getD []) ++ [cd]) } := by
  unfold processProp
  rw [show uiTypeOf cn (mkChildPM pname cna) = .ok (childDv cna) from rfl]
  simp only [except_bind_ok]
  rw [if_pos (show truthy (childDv cna) = true from rfl)]
  rw [if_neg (show ¬ ((truthy (lookupDec (mkChildPM pname cna) .hiddenDec) &&
    ! truthy (lookupDec (mkChildPM pname cna) .element)) = true) from by
      rw [show lookupDec (mkChildPM pname cna) .hiddenDec = .vUndef from rfl]
      simp [truthy])]
  rw [show placementFirst (mkChildPM pname cna).decs =
    [(.child, childDv cna)] from rfl]
  rw [foldlM_cons_except, hstep]
  rfl


theorem sortChildren_id_of_zero (l : List FieldDef)
    (h : ∀ c ∈ l, orderKey c = 0) : sortChildren l = l := by
  induction l with
  | nil => rfl
  | cons x xs ih =>
    rw [sortChildren, ih (fun c hc => h c (List.mem_cons_of_mem x hc)),
      insertOrd_of_zero x xs (h x (List.mem_cons_self x xs))
        (fun c hc => h c (List.mem_cons_of_mem x hc))]

/-- Any non-attribute key absent from every prop source reads as
`undefined` on the emitted element node. -/
theorem elemNode_mk_key_undef (ctx : ClassCtx) (cp gp : Obj) (e : ElemSpec)
    (value : Value) (k : String)
    (hattr : isValidatableByAttribute k = false)
    (hk1 : k ≠ "name") (hk2 : k ≠ "path") (hk3 : k ≠ "childOf")
    (hkt : k ≠ "type") (hkf : k ≠ "format") (hkv : k ≠ "value")
    (hgp : hasKey gp k = false) (hsp : hasKey e.sprops k = false)
    (hcp : hasKey (asObj (oget cp "props")) k = false) :
    oget (elemNode ctx cp gp (mkElemMeta e) e.tyName e.vrest value).props k =
      .vUndef := by
  show oget (elemP4 cp gp (mkElemMeta e) e.tyName e.vrest value) k = _
  unfold elemP4
  rw [oget_oset_ne _ _ _ _ (fun he => hkv (Eq.symm he))]
  unfold elemP3
  split
  · unfold elemP2
    rw [applyOk_oget_preserved _ _ _ hattr hkt hkf]
    exact elemProps0_mk_oget_undef cp gp e k hk1 hk2 hk3 hgp hsp hcp
  · rw [oget_oset_ne _ _ _ _ (fun he => hkt (Eq.symm he))]
    unfold elemP2
    rw [applyOk_oget_preserved _ _ _ hattr hkt hkf]
    exact elemProps0_mk_oget_undef cp gp e k hk1 hk2 hk3 hgp hsp hcp

/-- The names of the emitted spec nodes are the spec names, in order. -/
theorem specNodesFrom_names (ctx : ClassCtx) (cp gp : Obj) (model : Value)
    (es : List ElemSpec) (hgp : hasKey gp "name" = false)
    (hnames : ∀ e ∈ es, e.name ≠ "") :
    (specNodesFrom ctx cp gp model es).map (fun c => oget c.props "name") =
      es.map (fun e => Value.vStr e.name) := by
  unfold specNodesFrom
  rw [List.map_map]
  exact List.map_congr_left (fun e he =>
    specNode_name ctx cp gp e (vget model e.name) hgp (hnames e he))

/-- A successful spec'd build, with the returned tree in explicit form. -/
theorem build_spec_form (reg : Registry) (fuel : Nat) (model : Value)
    (gp0 : Obj) (gen : Bool) (cm : ClassMeta) (e0 : ElemSpec)
    (es : List ElemSpec)
    (hreg : lookupClass reg (instClassName model) = some cm)
    (hcds : cm.classDecorators.isEmpty = false)
    (hprops : cm.props = (e0 :: es).map mkElemPM)
    (hgpname : hasKey (oremove gp0 "inheritProps") "name" = false)
    (hnames : ∀ e ∈ e0 :: es, e.name ≠ "")
    (hdistinct : (e0 :: es).Pairwise (fun a b => a.name ≠ b.name)) :
    toFieldDefinition reg (fuel + 1) model gp0 gen =
      .ok (.mk (buildCtx cm gp0).tag (buildGlobalProps2 cm gp0)
        (some (buildSt0 cm gp0).childProps)
        (some ((sortChildren (specNodesFrom (buildCtx cm gp0)
          (buildSt0 cm gp0).childProps (oremove gp0 "inheritProps") model
          (e0 :: es))).filter
          (keepChild (oget (buildGlobalProps2 cm gp0) "operation"))))
        (if gen then some (generateUIModelID model) else none)) := by
  rw [toFieldDefinition_form reg fuel model gp0 gen cm hreg hcds, hprops]
  rw [List.map_cons, foldlM_cons_except]
  rw [show buildStep reg fuel model (instClassName model) (buildCtx cm gp0)
    (oremove gp0 "inheritProps") (buildSt0 cm gp0) (mkElemPM e0) =
    processProp (fun m g => toFieldDefinition reg fuel m g false) reg model
      (instClassName model) (buildCtx cm gp0) (oremove gp0 "inheritProps")
      (buildSt0 cm gp0) (mkElemPM e0) from rfl]
  rw [processProp_spec (fun m g => toFieldDefinition reg fuel m g false)
    reg model (instClassName model) (buildCtx cm gp0)
    (oremove gp0 "inheritProps") (buildSt0 cm gp0) e0 hgpname
    (hnames e0 (List.mem_cons_self e0 es)) (fun c hc => nomatch hc)]
  simp only [except_bind_ok]
  rw [foldl_buildStep_spec reg fuel model (instClassName model)
    (buildCtx cm gp0) (oremove gp0 "inheritProps") es _
    [specNode (buildCtx cm gp0) (buildSt0 cm gp0).childProps
      (oremove gp0 "inheritProps") e0 (vget model e0.name)] rfl hgpname
    (fun e2 he2 => hnames e2 (List.mem_cons_of_mem e0 he2))
    (fun e2 he2 c hc => by
      rw [List.eq_of_mem_singleton hc,
        specNode_name (buildCtx cm gp0) (buildSt0 cm gp0).childProps
          (oremove gp0 "inheritProps") e0 (vget model e0.name) hgpname
          (hnames e0 (List.mem_cons_self e0 es))]
      intro hcontra
      exact List.rel_of_pairwise_cons hdistinct he2 (Value.vStr.inj hcontra))
    hdistinct.of_cons]
  simp only [except_bind_ok]
  rfl

/-- A parent class carrying one child-placed property. -/
def parentCm (tP : Value) (pname cna : String) : ClassMeta :=
  ⟨[[("tag", tP)]], [mkChildPM pname cna]⟩

/-- A submodel class whose properties are plain spec'd elements. -/
def subCm (tA : Value) (specs : List ElemSpec) : ClassMeta :=
  ⟨[[("tag", tA)]], specs.map mkElemPM⟩

/-- The global props the `child` branch passes to the nested build. -/
def childGp (gp0 : Obj) (clazz : Value) (cna pname : String) : Obj :=
  assign (oremove gp0 "inheritProps")
    [("model", clazz), ("inheritProps", childDv cna),
     ("childOf", .vStr (getPath
       (oget (oremove gp0 "inheritProps") "childOf") pname))]

set_option maxHeartbeats 1000000 in
/-- The nested build on a submodel of the plain spec'd class: it succeeds,
receives no renderer id, carries `childOf` as its dot-joined path (the
property name at the root), and its children are named after the class's
properties in declaration order — independently of the submodel value. -/
theorem childSub_build (reg : Registry) (fuel : Nat) (opv tA clazz : Value)
    (cnA pName : String) (m2 : Value) (a0 : ElemSpec) (as2 : List ElemSpec)
    (hregA : lookupClass reg (instClassName m2) = some (subCm tA (a0 :: as2)))
    (hanames : ∀ e ∈ a0 :: as2, e.name ≠ "")
    (hadist : (a0 :: as2).Pairwise (fun a b => a.name ≠ b.name))
    (hplain : ∀ e ∈ a0 :: as2, e.hideSet = none ∧ e.ord = none)
    (hsp2 : ∀ e ∈ a0 :: as2, hasKey e.sprops "hidden" = false ∧
      hasKey e.sprops "order" = false) :
    ∃ cd, toFieldDefinition reg (fuel + 1) m2
        (childGp [("operation", opv)] clazz cnA pName) false = .ok cd ∧
      cd.rendererId = none ∧
      oget cd.props "childOf" = .vStr pName ∧
      oget cd.props "hidden" = .vUndef ∧
      (cd.children.getD []).map (fun c => oget c.props "name") =
        (a0 :: as2).map (fun e => Value.vStr e.name) := by
  have hform := build_spec_form reg fuel m2
    (childGp [("operation", opv)] clazz cnA pName) false
    (subCm tA (a0 :: as2)) a0 as2 hregA rfl rfl rfl hanames hadist
  refine ⟨_, hform, rfl, rfl, rfl, ?_⟩
  have hzero : ∀ c ∈ specNodesFrom
      (buildCtx (subCm tA (a0 :: as2)) (childGp [("operation", opv)] clazz cnA pName))
      (buildSt0 (subCm tA (a0 :: as2)) (childGp [("operation", opv)] clazz cnA pName)).childProps
      (oremove (childGp [("operation", opv)] clazz cnA pName) "inheritProps")
      m2 (a0 :: as2), orderKey c = 0 := by
    intro c hc
    obtain ⟨e, he, hce⟩ := List.mem_map.mp hc
    rw [← hce, specNode_none_eq _ _ _ _ _ (hplain e he).1 (hplain e he).2]
    unfold orderKey
    rw [elemNode_mk_key_undef
      (buildCtx (subCm tA (a0 :: as2)) (childGp [("operation", opv)] clazz cnA pName))
      ((buildSt0 (subCm tA (a0 :: as2)) (childGp [("operation", opv)] clazz cnA pName)).childProps)
      (oremove (childGp [("operation", opv)] clazz cnA pName) "inheritProps")
      e (vget m2 e.name) "order" (by decide) (by decide)
      (by decide) (by decide) (by decide) (by decide) (by decide) rfl
      (hsp2 e he).2 rfl]
  have hkeep : ∀ c ∈ specNodesFrom
      (buildCtx (subCm tA (a0 :: as2)) (childGp [("operation", opv)] clazz cnA pName))
      (buildSt0 (subCm tA (a0 :: as2)) (childGp [("operation", opv)] clazz cnA pName)).childProps
      (oremove (childGp [("operation", opv)] clazz cnA pName) "inheritProps")
      m2 (a0 :: as2),
      keepChild (oget (buildGlobalProps2 (subCm tA (a0 :: as2))
        (childGp [("operation", opv)] clazz cnA pName)) "operation") c = true := by
    intro c hc
    obtain ⟨e, he, hce⟩ := List.mem_map.mp hc
    rw [← hce]
    exact keepChild_of_hidden_undef _ _
      (specNode_hidden_undef
        (buildCtx (subCm tA (a0 :: as2)) (childGp [("operation", opv)] clazz cnA pName))
        ((buildSt0 (subCm tA (a0 :: as2)) (childGp [("operation", opv)] clazz cnA pName)).childProps)
        (oremove (childGp [("operation", opv)] clazz cnA pName) "inheritProps")
        e (vget m2 e.name) (hplain e he).1 rfl (hsp2 e he).1 rfl)
  show ((sortChildren (specNodesFrom _ _ _ m2 (a0 :: as2))).filter
    (keepChild _)).map (fun c => oget c.props "name") = _
  rw [sortChildren_id_of_zero _ hzero, List.filter_eq_self.mpr hkeep]
  exact specNodesFrom_names
    (buildCtx (subCm tA (a0 :: as2)) (childGp [("operation", opv)] clazz cnA pName))
    ((buildSt0 (subCm tA (a0 :: as2)) (childGp [("operation", opv)] clazz cnA pName)).childProps)
    (oremove (childGp [("operation", opv)] clazz cnA pName) "inheritProps")
    m2 (a0 :: as2) rfl hanames




/-- C7: child nesting. For a parent class with one child-placed property
whose declared submodel class is a registered plain spec'd class, a build
in which the property's current value is `undefined` instantiates a
placeholder instance of the declared class (the nested build runs on
`vInst cnA []` with `generateId` false, so the subtree gets no renderer
id), the subtree's `childOf` is the dot-joined path ending in the property
name (the property name itself at the root), and the subtree has the same
shape — children named after the submodel's properties in declaration
order — as the build in which a real instance is present. -/
theorem C7_child_placeholder (reg : Registry) (fuel : Nat) (gen : Bool)
    (opv tP tA : Value) (cnP cnA pName : String)
    (pflds1 pflds2 aflds : Obj) (a0 : ElemSpec) (as2 : List ElemSpec)
    (hregP : lookupClass reg cnP = some (parentCm tP pName cnA))
    (hregA : lookupClass reg cnA = some (subCm tA (a0 :: as2)))
    (h1 : hasKey pflds1 pName = false)
    (h2 : oget pflds2 pName = .vInst cnA aflds)
    (hanames : ∀ e ∈ a0 :: as2, e.name ≠ "")
    (hadist : (a0 :: as2).Pairwise (fun a b => a.name ≠ b.name))
    (hplain : ∀ e ∈ a0 :: as2, e.hideSet = none ∧ e.ord = none)
    (hsp2 : ∀ e ∈ a0 :: as2, hasKey e.sprops "hidden" = false ∧
      hasKey e.sprops "order" = false) :
    ∃ cd1 cd2 t1 t2,
      toFieldDefinition reg (fuel + 1) (.vInst cnA [])
        (childGp [("operation", opv)] (.vInst cnA []) cnA pName) false =
          .ok cd1 ∧
      toFieldDefinition reg (fuel + 1 + 1) (.vInst cnP pflds1)
        [("operation", opv)] gen = .ok t1 ∧
      toFieldDefinition reg (fuel + 1 + 1) (.vInst cnP pflds2)
        [("operation", opv)] gen = .ok t2 ∧
      t1.children.getD [] = [cd1] ∧
      t2.children.getD [] = [cd2] ∧
      cd1.rendererId = none ∧ cd2.rendererId = none ∧
      oget cd1.props "childOf" = .vStr pName ∧
      (cd1.children.getD []).map (fun c => oget c.props "name") =
        (a0 :: as2).map (fun e => Value.vStr e.name) ∧
      (cd2.children.getD []).map (fun c => oget c.props "name") =
        (a0 :: as2).map (fun e => Value.vStr e.name) := by
  obtain ⟨cd1, hin1, hr1, hco1, hh1, hn1⟩ := childSub_build reg fuel opv tA
    (.vInst cnA []) cnA pName (.vInst cnA []) a0 as2 hregA hanames hadist
    hplain hsp2
  obtain ⟨cd2, hin2, hr2, hco2, hh2, hn2⟩ := childSub_build reg fuel opv tA
    .vUndef cnA pName (.vInst cnA aflds) a0 as2 hregA hanames hadist
    hplain hsp2
  have hstep1 := processDec_child_eq
    (fun m g => toFieldDefinition reg (fuel + 1) m g false) reg
    (.vInst cnP pflds1) (buildCtx (parentCm tP pName cnA) [("operation", opv)])
    pName cnA (oremove [("operation", opv)] "inheritProps")
    (buildSt0 (parentCm tP pName cnA) [("operation", opv)]) cd1
    (subCm tA (a0 :: as2)) (oget_of_not_hasKey pflds1 pName h1) hregA hin1
  have hstep2 := processDec_child_real_eq
    (fun m g => toFieldDefinition reg (fuel + 1) m g false) reg
    (.vInst cnP pflds2) (buildCtx (parentCm tP pName cnA) [("operation", opv)])
    pName cnA aflds (oremove [("operation", opv)] "inheritProps")
    (buildSt0 (parentCm tP pName cnA) [("operation", opv)]) cd2 h2 hin2
  have hprop1 := processProp_child_eq
    (fun m g => toFieldDefinition reg (fuel + 1) m g false) reg
    (.vInst cnP pflds1) (instClassName (.vInst cnP pflds1))
    (buildCtx (parentCm tP pName cnA) [("operation", opv)])
    (oremove [("operation", opv)] "inheritProps")
    (buildSt0 (parentCm tP pName cnA) [("operation", opv)]) pName cnA cd1
    hstep1
  have hprop2 := processProp_child_eq
    (fun m g => toFieldDefinition reg (fuel + 1) m g false) reg
    (.vInst cnP pflds2) (instClassName (.vInst cnP pflds2))
    (buildCtx (parentCm tP pName cnA) [("operation", opv)])
    (oremove [("operation", opv)] "inheritProps")
    (buildSt0 (parentCm tP pName cnA) [("operation", opv)]) pName cnA cd2
    hstep2
  have hT1 : ∃ t1, toFieldDefinition reg (fuel + 1 + 1) (.vInst cnP pflds1)
      [("operation", opv)] gen = .ok t1 ∧ t1.children.getD [] = [cd1] := by
    rw [toFieldDefinition_form reg (fuel + 1) (.vInst cnP pflds1)
      [("operation", opv)] gen (parentCm tP pName cnA) hregP rfl]
    rw [show (parentCm tP pName cnA).props = [mkChildPM pName cnA] from rfl]
    rw [foldlM_cons_except]
    rw [show buildStep reg (fuel + 1) (.vInst cnP pflds1)
      (instClassName (.vInst cnP pflds1))
      (buildCtx (parentCm tP pName cnA) [("operation", opv)])
      (oremove [("operation", opv)] "inheritProps")
      (buildSt0 (parentCm tP pName cnA) [("operation", opv)])
      (mkChildPM pName cnA) =
      processProp (fun m g => toFieldDefinition reg (fuel + 1) m g false) reg
        (.vInst cnP pflds1) (instClassName (.vInst cnP pflds1))
        (buildCtx (parentCm tP pName cnA) [("operation", opv)])
        (oremove [("operation", opv)] "inheritProps")
        (buildSt0 (parentCm tP pName cnA) [("operation", opv)])
        (mkChildPM pName cnA) from rfl]
    rw [hprop1]
    simp only [except_bind_ok]
    refine ⟨_, rfl, ?_⟩
    have hk1 : keepChild (oget (buildGlobalProps2 (parentCm tP pName cnA)
        [("operation", opv)]) "operation") cd1 = true :=
      keepChild_of_hidden_undef _ _ hh1
    show ((sortChildren ((buildSt0 (parentCm tP pName cnA)
      [("operation", opv)]).children.getD [] ++ [cd1])).filter
      (keepChild (oget (buildGlobalProps2 (parentCm tP pName cnA)
        [("operation", opv)]) "operation"))) = [cd1]
    rw [show (buildSt0 (parentCm tP pName cnA)
      [("operation", opv)]).children.getD [] ++ [cd1] = [cd1] from rfl]
    rw [show sortChildren [cd1] = [cd1] from rfl]
    simp [List.filter, hk1]
  have hT2 : ∃ t2, toFieldDefinition reg (fuel + 1 + 1) (.vInst cnP pflds2)
      [("operation", opv)] gen = .ok t2 ∧ t2.children.getD [] = [cd2] := by
    rw [toFieldDefinition_form reg (fuel + 1) (.vInst cnP pflds2)
      [("operation", opv)] gen (parentCm tP pName cnA) hregP rfl]
    rw [show (parentCm tP pName cnA).props = [mkChildPM pName cnA] from rfl]
    rw [foldlM_cons_except]
    rw [show buildStep reg (fuel + 1) (.vInst cnP pflds2)
      (instClassName (.vInst cnP pflds2))
      (buildCtx (parentCm tP pName cnA) [("operation", opv)])
      (oremove [("operation", opv)] "inheritProps")
      (buildSt0 (parentCm tP pName cnA) [("operation", opv)])
      (mkChildPM pName cnA) =
      processProp (fun m g => toFieldDefinition reg (fuel + 1) m g false) reg
        (.vInst cnP pflds2) (instClassName (.vInst cnP pflds2))
        (buildCtx (parentCm tP pName cnA) [("operation", opv)])
        (oremove [("operation", opv)] "inheritProps")
        (buildSt0 (parentCm tP pName cnA) [("operation", opv)])
        (mkChildPM pName cnA) from rfl]
    rw [hprop2]
    simp only [except_bind_ok]
    refine ⟨_, rfl, ?_⟩
    have hk2 : keepChild (oget (buildGlobalProps2 (parentCm tP pName cnA)
        [("operation", opv)]) "operation") cd2 = true :=
      keepChild_of_hidden_undef _ _ hh2
    show ((sortChildren ((buildSt0 (parentCm tP pName cnA)
      [("operation", opv)]).children.getD [] ++ [cd2])).filter
      (keepChild (oget (buildGlobalProps2 (parentCm tP pName cnA)
        [("operation", opv)]) "operation"))) = [cd2]
    rw [show (buildSt0 (parentCm tP pName cnA)
      [("operation", opv)]).children.getD [] ++ [cd2] = [cd2] from rfl]
    rw [show sortChildren [cd2] = [cd2] from rfl]
    simp [List.filter, hk2]
  obtain ⟨t1, ht1, hc1⟩ := hT1
  obtain ⟨t2, ht2, hc2⟩ := hT2
  exact ⟨cd1, cd2, t1, t2, hin1, ht1, ht2, hc1, hc2, hr1, hr2, hco1, hn1, hn2⟩


/-- A one-property submodel class and a parent with one child-placed
`address` property, for the C7 scenario. -/
def c7A : ElemSpec := ⟨"street", .vStr "ui-input", [], none, none, "String", []⟩

def c7Reg : Registry :=
  [("P", parentCm (.vStr "ui-form") "address" "Address"),
   ("Address", subCm (.vStr "ui-sub") [c7A])]

def c7Pflds2 : Obj := [("address", .vInst "Address" [("street", .vStr "Main")])]

/-- Witness for C7 at a concrete input: a parent whose `address` is absent
builds the same-shaped subtree as one carrying a real `Address` instance. -/
theorem C7_witness :
    ∃ cd1 cd2 t1 t2,
      toFieldDefinition c7Reg (1 + 1) (.vInst "Address" [])
        (childGp [("operation", .vStr "read")] (.vInst "Address" [])
          "Address" "address") false = .ok cd1 ∧
      toFieldDefinition c7Reg (1 + 1 + 1) (.vInst "P" [])
        [("operation", .vStr "read")] true = .ok t1 ∧
      toFieldDefinition c7Reg (1 + 1 + 1) (.vInst "P" c7Pflds2)
        [("operation", .vStr "read")] true = .ok t2 ∧
      t1.children.getD [] = [cd1] ∧
      t2.children.getD [] = [cd2] ∧
      cd1.rendererId = none ∧ cd2.rendererId = none ∧
      oget cd1.props "childOf" = .vStr "address" ∧
      (cd1.children.getD []).map (fun c => oget c.props "name") =
        [c7A].map (fun e => Value.vStr e.name) ∧
      (cd2.children.getD []).map (fun c => oget c.props "name") =
        [c7A].map (fun e => Value.vStr e.name) :=
  C7_child_placeholder c7Reg 1 true (.vStr "read") (.vStr "ui-form")
    (.vStr "ui-sub") "P" "Address" "address" [] c7Pflds2
    [("street", .vStr "Main")] c7A [] rfl rfl rfl rfl
    (by
      intro e he
      rcases List.mem_cons.mp he with rfl | h2
      · decide
      cases h2)
    (List.Pairwise.cons (fun b hb => nomatch hb) List.Pairwise.nil)
    (by
      intro e he
      rcases List.mem_cons.mp he with rfl | h2
      · exact ⟨rfl, rfl⟩
      cases h2)
    (by
      intro e he
      rcases List.mem_cons.mp he with rfl | h2
      · exact ⟨rfl, rfl⟩
      cases h2)

end UIDec
